import Mathlib

/-!
Shallow embedding of the `LadderSession` grid model (`session.py`) of the
PLC_programming repository, together with proofs of the specified
properties.  The grid is a list of rows, each row a list of optional
occupant ids (`none` = empty cell).  Operations are pure functions
returning the result together with the successor session state; the
Python dict `block_types` is modelled as an association list.
-/

/-- Logical state of one block, mirroring the `BlockState` dataclass. -/
structure BlockState where
  id : Nat
  block_type : String
  row : Nat
  index : Nat
  position : Nat
deriving DecidableEq

/-- The session state, mirroring the fields of `LadderSession`:
`grid[row][col] = none` means empty, `some id` means occupied. -/
structure LadderSession where
  max_rows : Nat
  max_cols : Nat
  grid : List (List (Option Nat))
  block_types : List (Nat × String)
  next_id : Nat
deriving DecidableEq

/-- `LadderSession.__init__`: an empty `max_rows × max_cols` grid, empty
type map, id counter starting at 1. -/
def mkSession (max_rows max_cols : Nat) : LadderSession :=
  { max_rows := max_rows
    max_cols := max_cols
    grid := List.replicate max_rows (List.replicate max_cols none)
    block_types := []
    next_id := 1 }

/-- Cell lookup `grid[r][c]`; out-of-range reads give `none` (the code
only ever indexes in range). -/
def cell (g : List (List (Option Nat))) (r c : Nat) : Option Nat :=
  (g.getD r []).getD c none

/-- Cell assignment `grid[r][c] = v` (out-of-range writes are dropped;
the code only ever writes in range). -/
def setCell (g : List (List (Option Nat))) (r c : Nat) (v : Option Nat) :
    List (List (Option Nat)) :=
  g.set r ((g.getD r []).set c v)

/-- The ids occupying a row, in column order (empty cells skipped). -/
def rowOcc (row : List (Option Nat)) : List Nat := row.filterMap (fun x => x)

/-- The ids occupying the whole grid, row-major. -/
def gridOcc : List (List (Option Nat)) → List Nat
  | [] => []
  | row :: rest => rowOcc row ++ gridOcc rest

/-- `grid[row][c] is None` test used by the scanning loops; reads past
the end of the row count as occupied (the loops stay in range). -/
def cellFree (row : List (Option Nat)) (c : Nat) : Bool :=
  (row.getD c (some 0)).isNone

/-- A grid of exactly `mr` rows of exactly `mc` cells each. -/
def gridWF (g : List (List (Option Nat))) (mr mc : Nat) : Prop :=
  g.length = mr ∧ ∀ i, i < g.length → (g.getD i []).length = mc

/-- The session grid has exactly `max_rows` rows of exactly `max_cols`
cells, as established by the constructor and preserved by every
operation. -/
def sessionWF (s : LadderSession) : Prop :=
  gridWF s.grid s.max_rows s.max_cols

/-- Python dict assignment `d[k] = v`: overwrite in place, else append. -/
def dictInsert (d : List (Nat × String)) (k : Nat) (v : String) :
    List (Nat × String) :=
  match d with
  | [] => [(k, v)]
  | (k1, v1) :: rest =>
      if k1 = k then (k, v) :: rest else (k1, v1) :: dictInsert rest k v

/-- Python dict lookup `d.get(k)`. -/
def dictLookup (d : List (Nat × String)) (k : Nat) : Option String :=
  match d with
  | [] => none
  | (k1, v1) :: rest => if k1 = k then some v1 else dictLookup rest k

/-- Python dict lookup with default, `d.get(k, dflt)`. -/
def dictGetD (d : List (Nat × String)) (k : Nat) (dflt : String) : String :=
  (dictLookup d k).getD dflt

/-- Python `d.pop(k, None)`: remove the entry for `k` if present. -/
def dictPop (d : List (Nat × String)) (k : Nat) : List (Nat × String) :=
  d.filter (fun p => p.1 ≠ k)

/-- Index of the first cell holding `block_id` in one row
(the inner loop of `_find_block`). -/
def find_in_row : List (Option Nat) → Nat → Option Nat
  | [], _ => none
  | c :: rest, block_id =>
      if c = some block_id then some 0 else (find_in_row rest block_id).map (· + 1)

/-- Row-major scan of `_find_block`, carrying the current row index. -/
def find_block_aux : List (List (Option Nat)) → Nat → Nat → Option (Nat × Nat)
  | [], _, _ => none
  | row :: rest, r, block_id =>
      match find_in_row row block_id with
      | some c => some (r, c)
      | none => find_block_aux rest (r + 1) block_id

/-- `LadderSession._find_block`: `(row, col)` of the block, else `none`. -/
def find_block (s : LadderSession) (block_id : Nat) : Option (Nat × Nat) :=
  find_block_aux s.grid 0 block_id

/-- `LadderSession._global_position`: 1-based row-major sequence number. -/
def global_position (s : LadderSession) (row index : Nat) : Nat :=
  row * s.max_cols + index + 1

/-- First empty column of a row (the scan in `add_block_first_free`). -/
def firstFreeCol : List (Option Nat) → Option Nat
  | [] => none
  | none :: _ => some 0
  | some _ :: rest => (firstFreeCol rest).map (· + 1)

/-- The descending scan of `shift_right`:
`for c in range(max_cols - 1, start_col - 1, -1)` looking for an empty
cell.  `fuel` is the number of candidates left; the candidate inspected
at fuel `n + 1` is `col + n`, so the scan starts at the rightmost index
and moves down towards `col`. -/
def findFreeRightAux (row : List (Option Nat)) (col : Nat) : Nat → Option Nat
  | 0 => none
  | n + 1 => if cellFree row (col + n) then some (col + n) else findFreeRightAux row col n

/-- Free-cell search of `shift_right`: the first empty cell met scanning
from the right end of the row down to `start_col`. -/
def findFreeRight (row : List (Option Nat)) (col : Nat) : Option Nat :=
  findFreeRightAux row col (row.length - col)

/-- The ascending scan of `shift_left`: `for c in range(0, start_col + 1)`
looking for an empty cell, starting at `c` with `fuel` candidates left. -/
def findFreeLeftAux (row : List (Option Nat)) (c : Nat) : Nat → Option Nat
  | 0 => none
  | n + 1 => if cellFree row c then some c else findFreeLeftAux row (c + 1) n

/-- Free-cell search of `shift_left`: the first empty cell met scanning
from column 0 up to `start_col`. -/
def findFreeLeft (row : List (Option Nat)) (col : Nat) : Option Nat :=
  findFreeLeftAux row 0 (col + 1)

/-- The copy loop of `shift_right`:
`for c in range(free, start_col, -1): grid[c] = grid[c-1]`.
With fuel `n + 1` the write happens at index `start_col + n + 1`, so the
writes run from `free` down to `start_col + 1`, each reading the cell one
to its left (still unwritten, matching the in-place Python loop). -/
def shiftLoopRight (row : List (Option Nat)) (start_col : Nat) : Nat → List (Option Nat)
  | 0 => row
  | n + 1 =>
      shiftLoopRight (row.set (start_col + n + 1) (row.getD (start_col + n) none)) start_col n

/-- The copy loop of `shift_left`:
`for c in range(free, start_col): grid[c] = grid[c+1]`, writes running
upward from `free`, each reading the cell one to its right. -/
def shiftLoopLeft (row : List (Option Nat)) (c : Nat) : Nat → List (Option Nat)
  | 0 => row
  | n + 1 => shiftLoopLeft (row.set c (row.getD (c + 1) none)) (c + 1) n

/-- `shift_right` of `_insert_with_shift`, acting on one row: find an
empty cell scanning from the right, shift the segment, insert at
`start_col`.  Returns the final column and the updated row. -/
def shift_right (row : List (Option Nat)) (start_col block_id : Nat) :
    Option (Nat × List (Option Nat)) :=
  match findFreeRight row start_col with
  | none => none
  | some free =>
      some (start_col,
        (shiftLoopRight row start_col (free - start_col)).set start_col (some block_id))

/-- `shift_left` of `_insert_with_shift`, acting on one row. -/
def shift_left (row : List (Option Nat)) (start_col block_id : Nat) :
    Option (Nat × List (Option Nat)) :=
  match findFreeLeft row start_col with
  | none => none
  | some free =>
      some (start_col,
        (shiftLoopLeft row free (start_col - free)).set start_col (some block_id))

/-- Direction dispatch of `_insert_with_shift` on one row:
`> 0` right, `< 0` left, `= 0` auto (right first, then left). -/
def insertRowShift (row : List (Option Nat)) (col block_id : Nat) (direction : Int) :
    Option (Nat × List (Option Nat)) :=
  if direction > 0 then shift_right row col block_id
  else if direction < 0 then shift_left row col block_id
  else
    match shift_right row col block_id with
    | some res => some res
    | none => shift_left row col block_id

/-- `LadderSession._insert_with_shift`: apply the row-level shift-insert
to row `r` of the grid; on failure the grid is untouched. -/
def insert_with_shift (s : LadderSession) (r c block_id : Nat) (direction : Int) :
    Option Nat × LadderSession :=
  match insertRowShift (s.grid.getD r []) c block_id direction with
  | none => (none, s)
  | some (final_col, newRow) => (some final_col, { s with grid := s.grid.set r newRow })

/-- `LadderSession.add_block_first_free`. -/
def add_block_first_free (s : LadderSession) (row : Int) (block_type : String) :
    Option BlockState × LadderSession :=
  if ¬ (0 ≤ row ∧ row < (s.max_rows : Int)) then (none, s)
  else
    match firstFreeCol (s.grid.getD row.toNat []) with
    | none => (none, s)
    | some free_col =>
        (some ⟨s.next_id, block_type, row.toNat, free_col,
           global_position s row.toNat free_col⟩,
         { s with
            next_id := s.next_id + 1
            block_types := dictInsert s.block_types s.next_id block_type
            grid := setCell s.grid row.toNat free_col (some s.next_id) })

/-- `LadderSession.add_block_at`.  Note the faithful rendering of the
Python test `if not placed:`, which treats a successful shift-insert at
column 0 (`placed == 0`) like a failure: the type registration is
reverted and `None` returned even though the grid was already shifted. -/
def add_block_at (s : LadderSession) (row col : Int) (block_type : String)
    (direction : Int) : Option BlockState × LadderSession :=
  if ¬ (0 ≤ row ∧ row < (s.max_rows : Int)) then (none, s)
  else if col < 0 ∨ (s.max_cols : Int) ≤ col then (none, s)
  else if cell s.grid row.toNat col.toNat = none then
    (some ⟨s.next_id, block_type, row.toNat, col.toNat,
       global_position s row.toNat col.toNat⟩,
     { s with
        next_id := s.next_id + 1
        block_types := dictInsert s.block_types s.next_id block_type
        grid := setCell s.grid row.toNat col.toNat (some s.next_id) })
  else
    match insert_with_shift
        { s with
            next_id := s.next_id + 1
            block_types := dictInsert s.block_types s.next_id block_type }
        row.toNat col.toNat s.next_id direction with
    | (none, s2) => (none, { s2 with block_types := dictPop s2.block_types s.next_id })
    | (some final_col, s2) =>
        if final_col = 0 then
          (none, { s2 with block_types := dictPop s2.block_types s.next_id })
        else
          (some ⟨s.next_id, block_type, row.toNat, final_col,
             global_position s2 row.toNat final_col⟩, s2)

/-- Row clamp of `move_block`: an out-of-range `new_row` falls back to
the current row. -/
def clampRow (s : LadderSession) (new_row : Int) (old_row : Nat) : Nat :=
  if 0 ≤ new_row ∧ new_row < (s.max_rows : Int) then new_row.toNat else old_row

/-- Column clamp of `move_block`: negative columns to 0, then columns
past the end to `max_cols - 1` (sequentially, as in the source). -/
def clampCol (s : LadderSession) (target_col : Int) : Nat :=
  if (s.max_cols : Int) ≤ (if target_col < 0 then 0 else target_col) then
    s.max_cols - 1
  else (if target_col < 0 then 0 else target_col).toNat

/-- `LadderSession.move_block`: find, clamp, no-op on same cell, vacate
the source, place directly or shift-insert, roll back on failure. -/
def move_block (s : LadderSession) (block_id : Nat) (new_row target_col : Int)
    (direction : Int) : Option ((Nat × Nat) × (Nat × Nat)) × LadderSession :=
  match find_block s block_id with
  | none => (none, s)
  | some (old_row, old_col) =>
      if old_row = clampRow s new_row old_row ∧ old_col = clampCol s target_col then
        (some ((old_row, old_col),
               (clampRow s new_row old_row, clampCol s target_col)), s)
      else if cell (setCell s.grid old_row old_col none)
          (clampRow s new_row old_row) (clampCol s target_col) = none then
        (some ((old_row, old_col),
               (clampRow s new_row old_row, clampCol s target_col)),
         { s with grid := (setCell (setCell s.grid old_row old_col none)
             (clampRow s new_row old_row) (clampCol s target_col) (some block_id)) })
      else
        match insert_with_shift
            { s with grid := setCell s.grid old_row old_col none }
            (clampRow s new_row old_row) (clampCol s target_col)
            block_id direction with
        | (none, _) =>
            (none, { s with grid := (setCell (setCell s.grid old_row old_col none)
                old_row old_col (some block_id)) })
        | (some final_col, s2) =>
            (some ((old_row, old_col),
                   (clampRow s new_row old_row, final_col)), s2)

/-- `LadderSession.delete_block`. -/
def delete_block (s : LadderSession) (block_id : Nat) :
    Option (Nat × Nat) × LadderSession :=
  match find_block s block_id with
  | none => (none, s)
  | some (r, c) =>
      (some (r, c),
       { s with
          grid := setCell s.grid r c none
          block_types := dictPop s.block_types block_id })

/-- `LadderSession.get_block_state`. -/
def get_block_state (s : LadderSession) (block_id : Nat) : Option BlockState :=
  match find_block s block_id with
  | none => none
  | some (r, c) =>
      some ⟨block_id, dictGetD s.block_types block_id "UNKNOWN", r, c,
            global_position s r c⟩

/-- Inner loop of `get_snapshot` over one row, `c` the current column. -/
def snapshotRow (s : LadderSession) (r : Nat) :
    List (Option Nat) → Nat → List BlockState
  | [], _ => []
  | none :: rest, c => snapshotRow s r rest (c + 1)
  | some bid :: rest, c =>
      ⟨bid, dictGetD s.block_types bid "UNKNOWN", r, c, global_position s r c⟩ ::
        snapshotRow s r rest (c + 1)

/-- Outer loop of `get_snapshot` over the rows, `r` the current row. -/
def snapshotRows (s : LadderSession) :
    List (List (Option Nat)) → Nat → List BlockState
  | [], _ => []
  | row :: rest, r => snapshotRow s r row 0 ++ snapshotRows s rest (r + 1)

/-- `LadderSession.get_snapshot`: every placed block, row-major. -/
def get_snapshot (s : LadderSession) : List BlockState :=
  snapshotRows s s.grid 0

/-- One public mutating call on the session (used to speak about
arbitrary call sequences). -/
inductive Op where
  | addFirstFree (row : Int) (block_type : String)
  | addAt (row col : Int) (block_type : String) (direction : Int)
  | move (block_id : Nat) (new_row target_col direction : Int)
  | del (block_id : Nat)

/-- Run one call: the ids of the successfully returned `BlockState`s
(at most one) together with the successor state. -/
def opNewIds (s : LadderSession) : Op → List Nat × LadderSession
  | .addFirstFree row bt =>
      match add_block_first_free s row bt with
      | (some st, s2) => ([st.id], s2)
      | (none, s2) => ([], s2)
  | .addAt row col bt dir =>
      match add_block_at s row col bt dir with
      | (some st, s2) => ([st.id], s2)
      | (none, s2) => ([], s2)
  | .move bid nr tc dir => ([], (move_block s bid nr tc dir).2)
  | .del bid => ([], (delete_block s bid).2)

/-- Ids of the blocks returned by the successful adds of a call
sequence, in order of assignment. -/
def runTrace (s : LadderSession) : List Op → List Nat
  | [] => []
  | op :: rest =>
      (opNewIds s op).1 ++ runTrace (opNewIds s op).2 rest

/-- The session states reachable from a fresh session by the public
mutating operations. -/
inductive Reachable : LadderSession → Prop
  | init (max_rows max_cols : Nat) : Reachable (mkSession max_rows max_cols)
  | step (s : LadderSession) (op : Op) : Reachable s → Reachable (opNewIds s op).2

/-- Modelled from the claim wording of C2 (not from the source): the
nearest empty cell at index `free ≥ col`, i.e. the first empty cell
scanning upward from `col`. -/
def nearestFreeRight (row : List (Option Nat)) (col : Nat) : Option Nat :=
  findFreeLeftAux row col (row.length - col)

/-- Modelled from the claim wording of C2 (not from the source):
choose the nearest empty cell `free ≥ col`, shift the occupants of
`(col, free]` one step right (they fill `col+1 .. free`; since `free` is
nearest, every cell of `[col, free)` is occupied), insert at `col`. -/
def shift_right_spec (row : List (Option Nat)) (start_col block_id : Nat) :
    Option (Nat × List (Option Nat)) :=
  match nearestFreeRight row start_col with
  | none => none
  | some free =>
      some (start_col,
        row.take start_col ++ some block_id ::
          ((row.drop start_col).take (free - start_col)) ++ row.drop (free + 1))

/-- A 1 × 3 session with a full first row, used to evaluate the
theorems below on concrete inputs. -/
def exSession : LadderSession :=
  ⟨1, 3, [[some 1, some 2, some 3]], [(1, "XIC"), (2, "XIO"), (3, "OTE")], 4⟩

/-- A 1 × 1 session whose only cell is occupied. -/
def exFullRow : LadderSession :=
  ⟨1, 1, [[some 1]], [(1, "XIC")], 2⟩

/-- A 1 × 3 session with one free cell, used to run a shift-insert. -/
def exC5 : LadderSession :=
  ⟨1, 3, [[some 1, none, some 2]], [(1, "XIC"), (2, "XIO")], 3⟩

/-- The state `exC5` reaches after shift-inserting id 9 at column 0. -/
def exC5out : LadderSession :=
  ⟨1, 3, [[some 9, some 1, some 2]], [(1, "XIC"), (2, "XIO")], 3⟩

/-! ### Generic list facts -/

theorem list_set_self {α : Type _} : ∀ (l : List α) (i : Nat) (v : α),
    l[i]? = some v → l.set i v = l
  | [], i, v, h => by simp at h
  | a :: t, 0, v, h => by
      simp only [List.getElem?_cons_zero, Option.some.injEq] at h
      simp [h]
  | a :: t, i + 1, v, h => by
      simp only [List.getElem?_cons_succ] at h
      simp [list_set_self t i v h]

theorem take_add' {α : Type _} : ∀ (m n : Nat) (l : List α),
    l.take (m + n) = l.take m ++ (l.drop m).take n
  | 0, n, l => by simp
  | m + 1, n, [] => by simp
  | m + 1, n, a :: t => by
      have h1 : m + 1 + n = (m + n) + 1 := by omega
      rw [h1]
      simp only [List.take_succ_cons, List.drop_succ_cons, take_add' m n t]
      rfl

theorem getD_set_self {α : Type _} {l : List α} {i : Nat} {v d : α}
    (h : i < l.length) : (l.set i v).getD i d = v := by
  simp [List.getD_eq_getElem?_getD, List.getElem?_set_self h]

theorem getD_set_ne {α : Type _} {l : List α} {i j : Nat} {v d : α}
    (h : i ≠ j) : (l.set i v).getD j d = l.getD j d := by
  simp [List.getD_eq_getElem?_getD, List.getElem?_set_ne h]

/-! ### Facts about the cell predicates -/

theorem cellFree_iff {row : List (Option Nat)} {c : Nat} :
    cellFree row c = true ↔ row[c]? = some none := by
  unfold cellFree
  rw [List.getD_eq_getElem?_getD]
  cases h : row[c]? with
  | none => simp
  | some x => cases x <;> simp

theorem cellFree_lt_length {row : List (Option Nat)} {c : Nat}
    (h : cellFree row c = true) : c < row.length := by
  by_contra hc
  rw [cellFree_iff] at h
  rw [List.getElem?_eq_none (by omega)] at h
  cases h

theorem cellFree_of_ge {row : List (Option Nat)} {c : Nat}
    (h : row.length ≤ c) : cellFree row c = false := by
  cases hb : cellFree row c with
  | false => rfl
  | true => exact absurd (cellFree_lt_length hb) (by omega)

/-! ### The free-cell scans -/

theorem findFreeRightAux_spec (row : List (Option Nat)) (col : Nat) :
    ∀ n : Nat,
      (∀ free, findFreeRightAux row col n = some free →
        col ≤ free ∧ free < col + n ∧ cellFree row free = true ∧
          ∀ j, free < j → j < col + n → cellFree row j = false) ∧
      (findFreeRightAux row col n = none →
        ∀ j, col ≤ j → j < col + n → cellFree row j = false) := by
  intro n
  induction n with
  | zero =>
      refine ⟨fun free h => (by cases h), fun _ j hj1 hj2 => absurd hj2 (by omega)⟩
  | succ n ih =>
      constructor
      · intro free h
        cases hc : cellFree row (col + n) with
        | true =>
            rw [findFreeRightAux, if_pos hc] at h
            cases h
            exact ⟨by omega, by omega, hc, fun j hj1 hj2 => absurd hj1 (by omega)⟩
        | false =>
            rw [findFreeRightAux, if_neg (by simp [hc])] at h
            obtain ⟨h1, h2, h3, h4⟩ := ih.1 free h
            refine ⟨h1, by omega, h3, fun j hj1 hj2 => ?_⟩
            rcases Nat.lt_or_ge j (col + n) with hj | hj
            · exact h4 j hj1 hj
            · have : j = col + n := by omega
              rw [this]; exact hc
      · intro h j hj1 hj2
        cases hc : cellFree row (col + n) with
        | true => rw [findFreeRightAux, if_pos hc] at h; cases h
        | false =>
            rw [findFreeRightAux, if_neg (by simp [hc])] at h
            rcases Nat.lt_or_ge j (col + n) with hj | hj
            · exact ih.2 h j hj1 hj
            · have : j = col + n := by omega
              rw [this]; exact hc

theorem findFreeLeftAux_spec (row : List (Option Nat)) :
    ∀ (n c : Nat),
      (∀ free, findFreeLeftAux row c n = some free →
        c ≤ free ∧ free < c + n ∧ cellFree row free = true ∧
          ∀ j, c ≤ j → j < free → cellFree row j = false) ∧
      (findFreeLeftAux row c n = none →
        ∀ j, c ≤ j → j < c + n → cellFree row j = false) := by
  intro n
  induction n with
  | zero =>
      exact fun c => ⟨fun free h => (by cases h), fun _ j hj1 hj2 => absurd hj2 (by omega)⟩
  | succ n ih =>
      intro c
      constructor
      · intro free h
        cases hc : cellFree row c with
        | true =>
            rw [findFreeLeftAux, if_pos hc] at h
            cases h
            exact ⟨Nat.le_refl _, by omega, hc, fun j hj1 hj2 => absurd hj2 (by omega)⟩
        | false =>
            rw [findFreeLeftAux, if_neg (by simp [hc])] at h
            obtain ⟨h1, h2, h3, h4⟩ := (ih (c + 1)).1 free h
            refine ⟨by omega, by omega, h3, fun j hj1 hj2 => ?_⟩
            rcases Nat.lt_or_ge j (c + 1) with hj | hj
            · have : j = c := by omega
              rw [this]; exact hc
            · exact h4 j hj hj2
      · intro h j hj1 hj2
        cases hc : cellFree row c with
        | true => rw [findFreeLeftAux, if_pos hc] at h; cases h
        | false =>
            rw [findFreeLeftAux, if_neg (by simp [hc])] at h
            rcases Nat.lt_or_ge j (c + 1) with hj | hj
            · have : j = c := by omega
              rw [this]; exact hc
            · exact (ih (c + 1)).2 h j hj (by omega)

theorem findFreeRight_some_spec {row : List (Option Nat)} {col free : Nat}
    (h : findFreeRight row col = some free) :
    col ≤ free ∧ free < row.length ∧ cellFree row free = true ∧
      ∀ j, free < j → cellFree row j = false := by
  unfold findFreeRight at h
  obtain ⟨h1, h2, h3, h4⟩ := (findFreeRightAux_spec row col (row.length - col)).1 free h
  have hlt : free < row.length := cellFree_lt_length h3
  refine ⟨h1, hlt, h3, fun j hj => ?_⟩
  rcases Nat.lt_or_ge j row.length with hjl | hjl
  · exact h4 j hj (by omega)
  · exact cellFree_of_ge hjl

theorem findFreeRight_none_spec {row : List (Option Nat)} {col : Nat}
    (h : findFreeRight row col = none) :
    ∀ j, col ≤ j → cellFree row j = false := by
  intro j hj
  rcases Nat.lt_or_ge j row.length with hjl | hjl
  · exact (findFreeRightAux_spec row col (row.length - col)).2 h j hj (by omega)
  · exact cellFree_of_ge hjl

theorem findFreeRight_complete {row : List (Option Nat)} {col free : Nat}
    (hcf : cellFree row free = true) (hle : col ≤ free)
    (hmax : ∀ j, free < j → cellFree row j = false) :
    findFreeRight row col = some free := by
  have hlt : free < row.length := cellFree_lt_length hcf
  cases h : findFreeRight row col with
  | none => exact absurd hcf (by simp [findFreeRight_none_spec h free hle])
  | some f2 =>
      obtain ⟨h1, h2, h3, h4⟩ := findFreeRight_some_spec h
      rcases Nat.lt_trichotomy f2 free with hlt2 | heq | hgt
      · exact absurd hcf (by simp [h4 free hlt2])
      · rw [heq]
      · exact absurd h3 (by simp [hmax f2 hgt])

theorem findFreeLeft_some_spec {row : List (Option Nat)} {col free : Nat}
    (h : findFreeLeft row col = some free) :
    free ≤ col ∧ free < row.length ∧ cellFree row free = true ∧
      ∀ j, j < free → cellFree row j = false := by
  unfold findFreeLeft at h
  obtain ⟨h1, h2, h3, h4⟩ := (findFreeLeftAux_spec row (col + 1) 0).1 free h
  exact ⟨by omega, cellFree_lt_length h3, h3, fun j hj => h4 j (by omega) hj⟩

theorem findFreeLeft_none_spec {row : List (Option Nat)} {col : Nat}
    (h : findFreeLeft row col = none) :
    ∀ j, j ≤ col → cellFree row j = false := by
  intro j hj
  exact (findFreeLeftAux_spec row (col + 1) 0).2 h j (by omega) (by omega)

theorem findFreeLeft_complete {row : List (Option Nat)} {col free : Nat}
    (hcf : cellFree row free = true) (hle : free ≤ col)
    (hmin : ∀ j, j < free → cellFree row j = false) :
    findFreeLeft row col = some free := by
  cases h : findFreeLeft row col with
  | none => exact absurd hcf (by simp [findFreeLeft_none_spec h free hle])
  | some f2 =>
      obtain ⟨h1, h2, h3, h4⟩ := findFreeLeft_some_spec h
      rcases Nat.lt_trichotomy f2 free with hlt2 | heq | hgt
      · exact absurd h3 (by simp [hmin f2 hlt2])
      · rw [heq]
      · exact absurd hcf (by simp [h4 free hgt])

/-! ### The copy loops -/

theorem shiftLoopRight_length : ∀ (n : Nat) (row : List (Option Nat)) (col : Nat),
    (shiftLoopRight row col n).length = row.length
  | 0, row, col => rfl
  | n + 1, row, col => by
      rw [shiftLoopRight, shiftLoopRight_length n]
      simp

theorem shiftLoopLeft_length : ∀ (n : Nat) (row : List (Option Nat)) (c : Nat),
    (shiftLoopLeft row c n).length = row.length
  | 0, row, c => rfl
  | n + 1, row, c => by
      rw [shiftLoopLeft, shiftLoopLeft_length n]
      simp

theorem shiftLoopRight_eq : ∀ (n : Nat) (row : List (Option Nat)) (col : Nat),
    col + n < row.length →
    shiftLoopRight row col n =
      row.take (col + 1) ++ (row.drop col).take n ++ row.drop (col + n + 1)
  | 0, row, col, h => by simp [shiftLoopRight]
  | n + 1, row, col, h => by
      have hv : col + n < row.length := by omega
      have hw : col + n + 1 < row.length := by omega
      set v := row.getD (col + n) none with hvdef
      have hlen : col + n < (row.set (col + n + 1) v).length := by simp; omega
      rw [shiftLoopRight, shiftLoopRight_eq n _ col hlen]
      have p1 : (row.set (col + n + 1) v).take (col + 1) = row.take (col + 1) := by
        rw [List.set_take, List.set_eq_of_length_le (by simp only [List.length_take]; omega)]
      have p2 : ((row.set (col + n + 1) v).drop col).take n = (row.drop col).take n := by
        rw [List.drop_set, if_neg (by omega)]
        have e : col + n + 1 - col = n + 1 := by omega
        rw [e, List.set_take, List.set_eq_of_length_le (by simp only [List.length_take]; omega)]
      have p3 : (row.set (col + n + 1) v).drop (col + n + 1) = v :: row.drop (col + n + 2) := by
        have e : col + n + 1 + 1 = col + n + 2 := by omega
        rw [List.drop_set, if_neg (by omega), Nat.sub_self,
          List.drop_eq_getElem_cons hw, List.set_cons_zero, e]
      have p4 : (row.drop col).take (n + 1) = (row.drop col).take n ++ [v] := by
        rw [List.take_succ, List.getElem?_drop,
          List.getElem?_eq_getElem (by omega : col + n < row.length)]
        simp [hvdef, List.getD_eq_getElem?_getD, List.getElem?_eq_getElem hv]
      rw [p1, p2, p3, p4]
      have e2 : col + (n + 1) + 1 = col + n + 2 := by omega
      rw [e2]
      simp [List.append_assoc]

theorem shiftLoopLeft_eq : ∀ (n : Nat) (row : List (Option Nat)) (c : Nat),
    c + n < row.length →
    shiftLoopLeft row c n = row.take c ++ (row.drop (c + 1)).take n ++ row.drop (c + n)
  | 0, row, c, h => by simp [shiftLoopLeft]
  | n + 1, row, c, h => by
      have hc : c < row.length := by omega
      have hc1 : c + 1 < row.length := by omega
      set v := row.getD (c + 1) none with hvdef
      have hlen : c + 1 + n < (row.set c v).length := by simp; omega
      rw [shiftLoopLeft, shiftLoopLeft_eq n _ (c + 1) hlen]
      have p1 : (row.set c v).take (c + 1) = row.take c ++ [v] := by
        rw [List.set_take]
        rw [List.set_eq_take_cons_drop v (by simp only [List.length_take]; omega)]
        rw [List.take_take, Nat.min_eq_left (by omega)]
        rw [List.drop_eq_nil_of_le (by simp only [List.length_take]; omega)]
      have p2 : (row.set c v).drop (c + 1 + 1) = row.drop (c + 1 + 1) := by
        rw [List.drop_set, if_pos (by omega)]
      have p3 : (row.set c v).drop (c + 1 + n) = row.drop (c + 1 + n) := by
        rw [List.drop_set, if_pos (by omega)]
      have p4 : (row.drop (c + 1)).take (n + 1) = v :: (row.drop (c + 1 + 1)).take n := by
        rw [List.drop_eq_getElem_cons hc1, List.take_succ_cons]
        simp [hvdef, List.getD_eq_getElem?_getD, List.getElem?_eq_getElem hc1]
      rw [p1, p2, p3, p4]
      have e2 : c + 1 + n = c + (n + 1) := by omega
      rw [e2]
      simp [List.append_assoc]

/-! ### Characterization of the row-level shifts -/

theorem shift_right_parts {row row2 : List (Option Nat)} {col bid fc : Nat}
    (h : shift_right row col bid = some (fc, row2)) :
    fc = col ∧ row2.length = row.length := by
  unfold shift_right at h
  cases hf : findFreeRight row col with
  | none => rw [hf] at h; cases h
  | some free =>
      rw [hf] at h
      simp only [Option.some.injEq, Prod.mk.injEq] at h
      obtain ⟨h1, h2⟩ := h
      refine ⟨h1.symm, ?_⟩
      rw [← h2]
      simp [shiftLoopRight_length]

theorem shift_left_parts {row row2 : List (Option Nat)} {col bid fc : Nat}
    (h : shift_left row col bid = some (fc, row2)) :
    fc = col ∧ row2.length = row.length := by
  unfold shift_left at h
  cases hf : findFreeLeft row col with
  | none => rw [hf] at h; cases h
  | some free =>
      rw [hf] at h
      simp only [Option.some.injEq, Prod.mk.injEq] at h
      obtain ⟨h1, h2⟩ := h
      refine ⟨h1.symm, ?_⟩
      rw [← h2]
      simp [shiftLoopLeft_length]

theorem shift_right_eq_concat {row : List (Option Nat)} {col free bid : Nat}
    (hf : findFreeRight row col = some free) :
    shift_right row col bid =
      some (col, row.take col ++
        some bid :: ((row.drop col).take (free - col) ++ row.drop (free + 1))) := by
  obtain ⟨h1, h2, h3, h4⟩ := findFreeRight_some_spec hf
  have hcl : col < row.length := by omega
  have hL : col + (free - col) < row.length := by omega
  have e1 : col + (free - col) + 1 = free + 1 := by omega
  unfold shift_right
  rw [hf]
  dsimp only
  rw [shiftLoopRight_eq _ _ _ hL, e1, List.append_assoc]
  have hlenA : (row.take (col + 1)).length = col + 1 := by
    simp only [List.length_take]
    omega
  rw [List.set_append_left _ _ (by rw [hlenA]; omega)]
  have hA : (row.take (col + 1)).set col (some bid) = row.take col ++ [some bid] := by
    rw [← List.set_take, List.set_eq_take_cons_drop (some bid) hcl, List.append_cons]
    rw [List.take_left' (by
      simp only [List.length_append, List.length_take, List.length_cons, List.length_nil]
      omega)]
  rw [hA]
  simp [List.append_assoc]

theorem shift_left_eq_concat {row : List (Option Nat)} {col free bid : Nat}
    (hf : findFreeLeft row col = some free) (hcl : col < row.length) :
    shift_left row col bid =
      some (col, row.take free ++
        ((row.drop (free + 1)).take (col - free) ++ some bid :: row.drop (col + 1))) := by
  obtain ⟨h1, h2, h3, h4⟩ := findFreeLeft_some_spec hf
  have e : free + (col - free) = col := by omega
  have hL : free + (col - free) < row.length := by omega
  unfold shift_left
  rw [hf]
  dsimp only
  rw [shiftLoopLeft_eq _ _ _ hL, e]
  have hlenAB :
      (row.take free ++ (row.drop (free + 1)).take (col - free)).length = col := by
    simp only [List.length_append, List.length_take, List.length_drop]
    omega
  rw [List.set_append_right _ _ (by rw [hlenAB])]
  rw [hlenAB, Nat.sub_self, List.drop_eq_getElem_cons hcl, List.set_cons_zero]
  simp [List.append_assoc]

theorem shift_right_none_iff {row : List (Option Nat)} {col bid : Nat} :
    shift_right row col bid = none ↔ ∀ j, col ≤ j → cellFree row j = false := by
  constructor
  · intro h
    unfold shift_right at h
    cases hf : findFreeRight row col with
    | none => exact findFreeRight_none_spec hf
    | some free => rw [hf] at h; cases h
  · intro h
    unfold shift_right
    cases hf : findFreeRight row col with
    | none => rfl
    | some free =>
        obtain ⟨h1, h2, h3, h4⟩ := findFreeRight_some_spec hf
        rw [h free h1] at h3
        cases h3
  

theorem shift_left_none_iff {row : List (Option Nat)} {col bid : Nat} :
    shift_left row col bid = none ↔ ∀ j, j ≤ col → cellFree row j = false := by
  constructor
  · intro h
    unfold shift_left at h
    cases hf : findFreeLeft row col with
    | none => exact findFreeLeft_none_spec hf
    | some free => rw [hf] at h; cases h
  · intro h
    unfold shift_left
    cases hf : findFreeLeft row col with
    | none => rfl
    | some free =>
        obtain ⟨h1, h2, h3, h4⟩ := findFreeLeft_some_spec hf
        rw [h free h1] at h3
        cases h3

/-! ### Occupancy of a row -/

theorem rowOcc_append (l1 l2 : List (Option Nat)) :
    rowOcc (l1 ++ l2) = rowOcc l1 ++ rowOcc l2 := by
  simp [rowOcc]

theorem rowOcc_cons_some (b : Nat) (l : List (Option Nat)) :
    rowOcc (some b :: l) = b :: rowOcc l := by
  simp [rowOcc]

theorem rowOcc_cons_none (l : List (Option Nat)) :
    rowOcc (none :: l) = rowOcc l := by
  simp [rowOcc]

theorem rowOcc_perm_right {row : List (Option Nat)} {col free bid : Nat}
    (hfree : cellFree row free = true) (hle : col ≤ free) :
    List.Perm
      (rowOcc (row.take col ++
        some bid :: ((row.drop col).take (free - col) ++ row.drop (free + 1))))
      (bid :: rowOcc row) := by
  have hlt : free < row.length := cellFree_lt_length hfree
  have hcell : row[free] = none := by
    have h2 := List.getElem?_eq_getElem hlt
    rw [cellFree_iff.mp hfree] at h2
    exact (Option.some.inj h2).symm
  have e : col + (free - col) = free := by omega
  have htake : row.take free = row.take col ++ (row.drop col).take (free - col) := by
    have h3 := take_add' col (free - col) row
    rw [e] at h3
    exact h3
  have hdrop : row.drop free = none :: row.drop (free + 1) := by
    rw [List.drop_eq_getElem_cons hlt, hcell]
  have hrow : rowOcc row =
      rowOcc (row.take col) ++
        (rowOcc ((row.drop col).take (free - col)) ++ rowOcc (row.drop (free + 1))) := by
    conv_lhs => rw [← List.take_append_drop free row]
    rw [rowOcc_append, htake, hdrop, rowOcc_append, rowOcc_cons_none, List.append_assoc]
  have hlhs : rowOcc (row.take col ++
      some bid :: ((row.drop col).take (free - col) ++ row.drop (free + 1))) =
      rowOcc (row.take col) ++
        bid :: (rowOcc ((row.drop col).take (free - col)) ++ rowOcc (row.drop (free + 1))) := by
    rw [rowOcc_append, rowOcc_cons_some, rowOcc_append]
  rw [hlhs, hrow]
  exact List.perm_middle

theorem rowOcc_perm_left {row : List (Option Nat)} {col free bid : Nat}
    (hfree : cellFree row free = true) (hle : free ≤ col) :
    List.Perm
      (rowOcc (row.take free ++
        ((row.drop (free + 1)).take (col - free) ++ some bid :: row.drop (col + 1))))
      (bid :: rowOcc row) := by
  have hlt : free < row.length := cellFree_lt_length hfree
  have hcell : row[free] = none := by
    have h2 := List.getElem?_eq_getElem hlt
    rw [cellFree_iff.mp hfree] at h2
    exact (Option.some.inj h2).symm
  have e : free + 1 + (col - free) = col + 1 := by omega
  have hdrop1 : row.drop free = none :: row.drop (free + 1) := by
    rw [List.drop_eq_getElem_cons hlt, hcell]
  have hdrop2 : row.drop (free + 1) =
      (row.drop (free + 1)).take (col - free) ++ row.drop (col + 1) := by
    conv_lhs => rw [← List.take_append_drop (col - free) (row.drop (free + 1))]
    rw [List.drop_drop, e]
  have hrow : rowOcc row =
      rowOcc (row.take free) ++
        (rowOcc ((row.drop (free + 1)).take (col - free)) ++ rowOcc (row.drop (col + 1))) := by
    conv_lhs => rw [← List.take_append_drop free row]
    rw [rowOcc_append, hdrop1, rowOcc_cons_none]
    conv_lhs => rw [hdrop2]
    rw [rowOcc_append]
  have hlhs : rowOcc (row.take free ++
      ((row.drop (free + 1)).take (col - free) ++ some bid :: row.drop (col + 1))) =
      (rowOcc (row.take free) ++ rowOcc ((row.drop (free + 1)).take (col - free))) ++
        bid :: rowOcc (row.drop (col + 1)) := by
    rw [rowOcc_append, rowOcc_append, rowOcc_cons_some, List.append_assoc]
  rw [hlhs, hrow]
  refine List.Perm.trans List.perm_middle ?_
  rw [List.append_assoc]

/-! ### Finding blocks and free columns -/

theorem find_in_row_spec : ∀ (row : List (Option Nat)) (bid c : Nat),
    find_in_row row bid = some c → c < row.length ∧ row[c]? = some (some bid)
  | [], bid, c, h => by cases h
  | x :: rest, bid, c, h => by
      unfold find_in_row at h
      by_cases hx : x = some bid
      · rw [if_pos hx] at h
        injection h with h1
        subst h1
        simp [hx]
      · rw [if_neg hx] at h
        cases hr : find_in_row rest bid with
        | none => rw [hr] at h; cases h
        | some c0 =>
            rw [hr] at h
            injection h with h1
            subst h1
            obtain ⟨ih1, ih2⟩ := find_in_row_spec rest bid c0 hr
            exact ⟨by simpa using Nat.succ_lt_succ ih1, by simpa using ih2⟩

theorem find_block_aux_spec : ∀ (g : List (List (Option Nat))) (off bid r c : Nat),
    find_block_aux g off bid = some (r, c) →
    off ≤ r ∧ r - off < g.length ∧
      ∃ row, g[r - off]? = some row ∧ find_in_row row bid = some c
  | [], off, bid, r, c, h => by cases h
  | row :: rest, off, bid, r, c, h => by
      unfold find_block_aux at h
      cases hf : find_in_row row bid with
      | some c0 =>
          rw [hf] at h
          simp only [Option.some.injEq, Prod.mk.injEq] at h
          obtain ⟨h1, h2⟩ := h
          subst h1
          subst h2
          exact ⟨Nat.le_refl _, by simp, row, by simp, hf⟩
      | none =>
          rw [hf] at h
          obtain ⟨ih1, ih2, row2, ih3, ih4⟩ := find_block_aux_spec rest (off + 1) bid r c h
          refine ⟨by omega, by simp only [List.length_cons]; omega, row2, ?_, ih4⟩
          have e : r - off = (r - (off + 1)) + 1 := by omega
          rw [e, List.getElem?_cons_succ]
          exact ih3

theorem find_block_cell {s : LadderSession} {bid r c : Nat}
    (h : find_block s bid = some (r, c)) :
    r < s.grid.length ∧ c < (s.grid.getD r []).length ∧
      cell s.grid r c = some bid := by
  obtain ⟨h1, h2, row, h3, h4⟩ := find_block_aux_spec s.grid 0 bid r c h
  rw [Nat.sub_zero] at h2 h3
  obtain ⟨hc1, hc2⟩ := find_in_row_spec row bid c h4
  have hrow : s.grid.getD r [] = row := by
    rw [List.getD_eq_getElem?_getD, h3]
    rfl
  refine ⟨h2, by rw [hrow]; exact hc1, ?_⟩
  unfold cell
  rw [hrow, List.getD_eq_getElem?_getD, hc2]
  rfl

theorem firstFreeCol_spec : ∀ (row : List (Option Nat)) (c : Nat),
    firstFreeCol row = some c → c < row.length ∧ row[c]? = some none
  | [], c, h => by cases h
  | none :: rest, c, h => by
      unfold firstFreeCol at h
      injection h with h1
      subst h1
      simp
  | some a :: rest, c, h => by
      unfold firstFreeCol at h
      cases hr : firstFreeCol rest with
      | none => rw [hr] at h; cases h
      | some c0 =>
          rw [hr] at h
          injection h with h1
          subst h1
          obtain ⟨ih1, ih2⟩ := firstFreeCol_spec rest c0 hr
          exact ⟨by simpa using Nat.succ_lt_succ ih1, by simpa using ih2⟩

/-! ### The block-type dictionary -/

theorem dictPop_dictInsert : ∀ (d : List (Nat × String)) (k : Nat) (v : String),
    dictLookup d k = none → dictPop (dictInsert d k v) k = d
  | [], k, v, h => by simp [dictInsert, dictPop]
  | (k1, v1) :: rest, k, v, h => by
      unfold dictLookup at h
      by_cases hk : k1 = k
      · rw [if_pos hk] at h; cases h
      · rw [if_neg hk] at h
        unfold dictInsert
        rw [if_neg hk]
        have hstep : dictPop ((k1, v1) :: dictInsert rest k v) k =
            (k1, v1) :: dictPop (dictInsert rest k v) k := by
          simp [dictPop, hk]
        rw [hstep, dictPop_dictInsert rest k v h]

/-! ### Occupancy transfer of the shifts -/

theorem shift_right_occ {row row2 : List (Option Nat)} {col bid fc : Nat}
    (h : shift_right row col bid = some (fc, row2)) :
    List.Perm (rowOcc row2) (bid :: rowOcc row) := by
  cases hf : findFreeRight row col with
  | none => unfold shift_right at h; rw [hf] at h; cases h
  | some free =>
      obtain ⟨hf1, hf2, hf3, hf4⟩ := findFreeRight_some_spec hf
      have hc := @shift_right_eq_concat row col free bid hf
      rw [h] at hc
      simp only [Option.some.injEq, Prod.mk.injEq] at hc
      rw [hc.2]
      exact rowOcc_perm_right hf3 hf1

theorem shift_left_occ {row row2 : List (Option Nat)} {col bid fc : Nat}
    (hcl : col < row.length)
    (h : shift_left row col bid = some (fc, row2)) :
    List.Perm (rowOcc row2) (bid :: rowOcc row) := by
  cases hf : findFreeLeft row col with
  | none => unfold shift_left at h; rw [hf] at h; cases h
  | some free =>
      obtain ⟨hf1, hf2, hf3, hf4⟩ := findFreeLeft_some_spec hf
      have hc := @shift_left_eq_concat row col free bid hf hcl
      rw [h] at hc
      simp only [Option.some.injEq, Prod.mk.injEq] at hc
      rw [hc.2]
      exact rowOcc_perm_left hf3 hf1

/-- Summary of a successful row-level shift-insert in any direction:
the new block sits at `col`, the row keeps its length, and the row's
occupants are exactly the old ones plus the new id. -/
theorem insertRowShift_some {row row2 : List (Option Nat)} {col bid fc : Nat}
    {dir : Int} (hcl : col < row.length)
    (h : insertRowShift row col bid dir = some (fc, row2)) :
    fc = col ∧ row2.length = row.length ∧
      List.Perm (rowOcc row2) (bid :: rowOcc row) := by
  unfold insertRowShift at h
  by_cases hd1 : dir > 0
  · rw [if_pos hd1] at h
    exact ⟨(shift_right_parts h).1, (shift_right_parts h).2, shift_right_occ h⟩
  · rw [if_neg hd1] at h
    by_cases hd2 : dir < 0
    · rw [if_pos hd2] at h
      exact ⟨(shift_left_parts h).1, (shift_left_parts h).2, shift_left_occ hcl h⟩
    · rw [if_neg hd2] at h
      cases hr : shift_right row col bid with
      | some res =>
          rw [hr] at h
          cases res with
          | mk a b =>
              simp only [Option.some.injEq, Prod.mk.injEq] at h
              obtain ⟨h1, h2⟩ := h
              subst h1
              subst h2
              exact ⟨(shift_right_parts hr).1, (shift_right_parts hr).2,
                shift_right_occ hr⟩
      | none =>
          rw [hr] at h
          exact ⟨(shift_left_parts h).1, (shift_left_parts h).2, shift_left_occ hcl h⟩

/-- The auto mode fails exactly when the whole row is occupied. -/
theorem insertRowShift_auto_none_iff {row : List (Option Nat)} {col bid : Nat} :
    insertRowShift row col bid 0 = none ↔
      (∀ j, col ≤ j → cellFree row j = false) ∧ ∀ j, j ≤ col → cellFree row j = false := by
  unfold insertRowShift
  rw [if_neg (by omega), if_neg (by omega)]
  constructor
  · intro h
    cases hr : shift_right row col bid with
    | some res => rw [hr] at h; cases h
    | none =>
        rw [hr] at h
        exact ⟨shift_right_none_iff.mp hr, shift_left_none_iff.mp h⟩
  · intro ⟨h1, h2⟩
    rw [shift_right_none_iff.mpr h1]
    exact shift_left_none_iff.mpr h2

/-! ### Occupancy of the grid -/

theorem gridOcc_cons (row : List (Option Nat)) (g : List (List (Option Nat))) :
    gridOcc (row :: g) = rowOcc row ++ gridOcc g := rfl

theorem gridOcc_set : ∀ (g : List (List (Option Nat))) (r : Nat)
    (row2 : List (Option Nat)), r < g.length →
    gridOcc (g.set r row2) =
      gridOcc (g.take r) ++ rowOcc row2 ++ gridOcc (g.drop (r + 1))
  | [], r, row2, h => by simp at h
  | row :: rest, 0, row2, h => by
      simp [gridOcc_cons, gridOcc]
  | row :: rest, r + 1, row2, h => by
      simp only [List.set_cons_succ, List.take_succ_cons, List.drop_succ_cons,
        gridOcc_cons]
      rw [gridOcc_set rest r row2 (by simp only [List.length_cons] at h; omega)]
      simp [List.append_assoc]

theorem gridOcc_decomp : ∀ (g : List (List (Option Nat))) (r : Nat),
    r < g.length →
    gridOcc g = gridOcc (g.take r) ++ rowOcc (g.getD r []) ++ gridOcc (g.drop (r + 1))
  | [], r, h => by simp at h
  | row :: rest, 0, h => by
      simp [gridOcc_cons, gridOcc]
  | row :: rest, r + 1, h => by
      simp only [List.take_succ_cons, List.drop_succ_cons, gridOcc_cons]
      have e : (row :: rest).getD (r + 1) [] = rest.getD r [] := by
        simp [List.getD_eq_getElem?_getD]
      rw [e, gridOcc_decomp rest r (by simp only [List.length_cons] at h; omega)]
      simp [List.append_assoc]

theorem gridOcc_set_perm {g : List (List (Option Nat))} {r : Nat}
    {row2 : List (Option Nat)} {bid : Nat} (hr : r < g.length)
    (hperm : List.Perm (rowOcc row2) (bid :: rowOcc (g.getD r []))) :
    List.Perm (gridOcc (g.set r row2)) (bid :: gridOcc g) := by
  rw [gridOcc_set g r row2 hr, gridOcc_decomp g r hr]
  have step1 : List.Perm
      ((gridOcc (g.take r) ++ rowOcc row2) ++ gridOcc (g.drop (r + 1)))
      ((gridOcc (g.take r) ++ (bid :: rowOcc (g.getD r []))) ++ gridOcc (g.drop (r + 1))) :=
    List.Perm.append_right _ (List.Perm.append_left _ hperm)
  refine step1.trans ?_
  have e : (gridOcc (g.take r) ++ (bid :: rowOcc (g.getD r []))) ++ gridOcc (g.drop (r + 1))
      = gridOcc (g.take r) ++
          bid :: (rowOcc (g.getD r []) ++ gridOcc (g.drop (r + 1))) := by
    simp [List.append_assoc]
  rw [e]
  refine List.perm_middle.trans ?_
  rw [List.append_assoc]

theorem gridOcc_set_perm' {g : List (List (Option Nat))} {r : Nat}
    {row2 : List (Option Nat)} {bid : Nat} (hr : r < g.length)
    (hperm : List.Perm (rowOcc (g.getD r [])) (bid :: rowOcc row2)) :
    List.Perm (gridOcc g) (bid :: gridOcc (g.set r row2)) := by
  rw [gridOcc_set g r row2 hr, gridOcc_decomp g r hr]
  have step1 : List.Perm
      ((gridOcc (g.take r) ++ rowOcc (g.getD r [])) ++ gridOcc (g.drop (r + 1)))
      ((gridOcc (g.take r) ++ (bid :: rowOcc row2)) ++ gridOcc (g.drop (r + 1))) :=
    List.Perm.append_right _ (List.Perm.append_left _ hperm)
  refine step1.trans ?_
  have e : (gridOcc (g.take r) ++ (bid :: rowOcc row2)) ++ gridOcc (g.drop (r + 1))
      = gridOcc (g.take r) ++ bid :: (rowOcc row2 ++ gridOcc (g.drop (r + 1))) := by
    simp [List.append_assoc]
  rw [e]
  refine List.perm_middle.trans ?_
  rw [List.append_assoc]

theorem cell_some_bounds {g : List (List (Option Nat))} {r c bid : Nat}
    (h : cell g r c = some bid) :
    r < g.length ∧ c < (g.getD r []).length := by
  unfold cell at h
  constructor
  · by_contra hr
    rw [List.getD_eq_default g [] (by omega)] at h
    cases h
  · by_contra hc
    rw [List.getD_eq_default (g.getD r []) none (by omega)] at h
    cases h

theorem rowOcc_set_none {row : List (Option Nat)} {c bid : Nat}
    (h : row.getD c none = some bid) :
    List.Perm (rowOcc row) (bid :: rowOcc (row.set c none)) := by
  have hc : c < row.length := by
    by_contra hcc
    rw [List.getD_eq_default row none (by omega)] at h
    cases h
  have hcell : row[c] = some bid := by
    rw [List.getD_eq_getElem?_getD, List.getElem?_eq_getElem hc] at h
    simpa using h
  have h1 : row.set c none = row.take c ++ none :: row.drop (c + 1) :=
    List.set_eq_take_cons_drop none hc
  have h2 : row = row.take c ++ some bid :: row.drop (c + 1) := by
    conv_lhs => rw [← List.take_append_drop c row]
    rw [List.drop_eq_getElem_cons hc, hcell]
  rw [h1]
  conv_lhs => rw [h2]
  rw [rowOcc_append, rowOcc_cons_some, rowOcc_append, rowOcc_cons_none]
  exact List.perm_middle

theorem rowOcc_set_some_perm {row : List (Option Nat)} {c bid : Nat}
    (h : row.getD c none = none) (hc : c < row.length) :
    List.Perm (rowOcc (row.set c (some bid))) (bid :: rowOcc row) := by
  have hcell : row[c] = none := by
    rw [List.getD_eq_getElem?_getD, List.getElem?_eq_getElem hc] at h
    simpa using h
  have h1 : row.set c (some bid) = row.take c ++ some bid :: row.drop (c + 1) :=
    List.set_eq_take_cons_drop (some bid) hc
  have h2 : row = row.take c ++ none :: row.drop (c + 1) := by
    conv_lhs => rw [← List.take_append_drop c row]
    rw [List.drop_eq_getElem_cons hc, hcell]
  rw [h1]
  conv_rhs => rw [h2]
  rw [rowOcc_append, rowOcc_cons_some, rowOcc_append, rowOcc_cons_none]
  exact List.perm_middle

theorem gridOcc_setCell_some {g : List (List (Option Nat))} {r c bid : Nat}
    (hr : r < g.length) (hc : c < (g.getD r []).length)
    (hfree : cell g r c = none) :
    List.Perm (gridOcc (setCell g r c (some bid))) (bid :: gridOcc g) := by
  unfold cell at hfree
  exact gridOcc_set_perm hr (rowOcc_set_some_perm hfree hc)

theorem gridOcc_setCell_none {g : List (List (Option Nat))} {r c bid : Nat}
    (h : cell g r c = some bid) :
    List.Perm (gridOcc g) (bid :: gridOcc (setCell g r c none)) := by
  obtain ⟨hr, hc⟩ := cell_some_bounds h
  unfold cell at h
  exact gridOcc_set_perm' hr (rowOcc_set_none h)

/-! ### Session-level shift-insert -/

theorem insert_with_shift_of_none {s : LadderSession} {r c bid : Nat} {dir : Int}
    (h : insertRowShift (s.grid.getD r []) c bid dir = none) :
    insert_with_shift s r c bid dir = (none, s) := by
  unfold insert_with_shift
  rw [h]

theorem insert_with_shift_of_some {s : LadderSession} {r c bid : Nat} {dir : Int}
    {fc : Nat} {row2 : List (Option Nat)}
    (h : insertRowShift (s.grid.getD r []) c bid dir = some (fc, row2)) :
    insert_with_shift s r c bid dir = (some fc, { s with grid := s.grid.set r row2 }) := by
  unfold insert_with_shift
  rw [h]

theorem insert_with_shift_cases (s : LadderSession) (r c bid : Nat) (dir : Int) :
    insert_with_shift s r c bid dir = (none, s) ∨
      ∃ fc row2, insertRowShift (s.grid.getD r []) c bid dir = some (fc, row2) ∧
        insert_with_shift s r c bid dir =
          (some fc, { s with grid := s.grid.set r row2 }) := by
  cases hi : insertRowShift (s.grid.getD r []) c bid dir with
  | none => exact Or.inl (insert_with_shift_of_none hi)
  | some res =>
      cases res with
      | mk fc row2 => exact Or.inr ⟨fc, row2, rfl, insert_with_shift_of_some hi⟩

/-! ### The reachable-state invariant -/

/-- States whose grid is well-formed, whose occupants are pairwise
distinct, and whose occupants all carry ids below the counter. -/
def GoodS (s : LadderSession) : Prop :=
  sessionWF s ∧ (gridOcc s.grid).Nodup ∧ ∀ x ∈ gridOcc s.grid, x < s.next_id

theorem gridWF_set {g : List (List (Option Nat))} {mr mc r : Nat}
    {row2 : List (Option Nat)} (h : gridWF g mr mc) (hlen : row2.length = mc) :
    gridWF (g.set r row2) mr mc := by
  obtain ⟨h1, h2⟩ := h
  refine ⟨by simp [h1], ?_⟩
  intro i hi
  simp only [List.length_set] at hi
  by_cases hir : i = r
  · subst hir
    rw [getD_set_self hi]
    exact hlen
  · rw [getD_set_ne (by omega)]
    exact h2 i hi

theorem rowOcc_replicate_none (mc : Nat) :
    rowOcc (List.replicate mc (none : Option Nat)) = [] := by
  induction mc with
  | zero => rfl
  | succ n ih => rw [List.replicate_succ, rowOcc_cons_none, ih]

theorem gridOcc_mk : ∀ mr mc : Nat,
    gridOcc (List.replicate mr (List.replicate mc (none : Option Nat))) = []
  | 0, mc => rfl
  | mr + 1, mc => by
      rw [List.replicate_succ, gridOcc_cons, rowOcc_replicate_none, gridOcc_mk mr mc]
      rfl

theorem mkSession_good (mr mc : Nat) : GoodS (mkSession mr mc) := by
  refine ⟨⟨by simp [mkSession], ?_⟩, ?_, ?_⟩
  · intro i hi
    simp only [mkSession, List.length_replicate] at hi
    have h2 : (List.replicate mr (List.replicate mc (none : Option Nat)))[i]? =
        some (List.replicate mc none) := by
      rw [List.getElem?_replicate, if_pos hi]
    simp only [mkSession]
    rw [List.getD_eq_getElem?_getD, h2]
    simp
  · simp only [mkSession]
    rw [gridOcc_mk]
    exact List.nodup_nil
  · intro x hx
    simp only [mkSession] at hx
    rw [gridOcc_mk] at hx
    cases hx

theorem good_of_perm_cons {g2 g : List (List (Option Nat))} {bid n : Nat}
    (hperm : List.Perm (gridOcc g2) (bid :: gridOcc g))
    (hnd : (gridOcc g).Nodup) (hfresh : ∀ x ∈ gridOcc g, x < n) (hbid : n ≤ bid) :
    (gridOcc g2).Nodup ∧ ∀ x ∈ gridOcc g2, x < bid + 1 := by
  have hnotin : bid ∉ gridOcc g := fun hmem => absurd (hfresh bid hmem) (by omega)
  constructor
  · exact (List.nodup_cons.mpr ⟨hnotin, hnd⟩).perm hperm.symm
  · intro x hx
    have hx2 : x ∈ bid :: gridOcc g := hperm.mem_iff.mp hx
    rcases List.mem_cons.mp hx2 with h1 | h1
    · omega
    · have := hfresh x h1
      omega

theorem add_block_first_free_good {s : LadderSession} {row : Int} {bt : String}
    (hg : GoodS s) : GoodS (add_block_first_free s row bt).2 := by
  obtain ⟨hwf, hnd, hfresh⟩ := hg
  unfold add_block_first_free
  by_cases hrow : ¬ (0 ≤ row ∧ row < (s.max_rows : Int))
  · rw [if_pos hrow]
    exact ⟨hwf, hnd, hfresh⟩
  · rw [if_neg hrow]
    rw [not_not] at hrow
    cases hfc : firstFreeCol (s.grid.getD row.toNat []) with
    | none => exact ⟨hwf, hnd, hfresh⟩
    | some free_col =>
        dsimp only
        obtain ⟨hc1, hc2⟩ := firstFreeCol_spec _ _ hfc
        have hr : row.toNat < s.grid.length := by
          rw [hwf.1]
          omega
        have hfree : cell s.grid row.toNat free_col = none := by
          unfold cell
          rw [List.getD_eq_getElem?_getD, hc2]
          rfl
        have hperm := @gridOcc_setCell_some s.grid row.toNat free_col s.next_id hr hc1 hfree
        refine ⟨?_, ?_⟩
        · unfold sessionWF at hwf ⊢
          dsimp only
          unfold setCell
          refine gridWF_set hwf ?_
          rw [List.length_set]
          exact hwf.2 _ hr
        · dsimp only
          exact good_of_perm_cons hperm hnd hfresh (Nat.le_refl _)

theorem add_block_at_good {s : LadderSession} {row col : Int} {bt : String} {dir : Int}
    (hg : GoodS s) : GoodS (add_block_at s row col bt dir).2 := by
  obtain ⟨hwf, hnd, hfresh⟩ := hg
  unfold add_block_at
  by_cases hrow : ¬ (0 ≤ row ∧ row < (s.max_rows : Int))
  · rw [if_pos hrow]
    exact ⟨hwf, hnd, hfresh⟩
  rw [if_neg hrow]
  rw [not_not] at hrow
  by_cases hcol : col < 0 ∨ (s.max_cols : Int) ≤ col
  · rw [if_pos hcol]
    exact ⟨hwf, hnd, hfresh⟩
  rw [if_neg hcol]
  push_neg at hcol
  have hr : row.toNat < s.grid.length := by
    rw [hwf.1]
    omega
  have hrowlen : (s.grid.getD row.toNat []).length = s.max_cols := hwf.2 _ hr
  have hc : col.toNat < (s.grid.getD row.toNat []).length := by
    rw [hrowlen]
    omega
  by_cases hcell : cell s.grid row.toNat col.toNat = none
  · rw [if_pos hcell]
    have hperm := @gridOcc_setCell_some s.grid row.toNat col.toNat s.next_id hr hc hcell
    refine ⟨?_, ?_⟩
    · unfold sessionWF at hwf ⊢
      dsimp only
      unfold setCell
      refine gridWF_set hwf ?_
      rw [List.length_set]
      exact hrowlen
    · dsimp only
      exact good_of_perm_cons hperm hnd hfresh (Nat.le_refl _)
  · rw [if_neg hcell]
    rcases insert_with_shift_cases
        { s with
            next_id := s.next_id + 1
            block_types := dictInsert s.block_types s.next_id bt }
        row.toNat col.toNat s.next_id dir with hnone | ⟨fc, row2, hirs, hsome⟩
    · rw [hnone]
      dsimp only
      exact ⟨hwf, hnd, fun x hx => by
        have := hfresh x hx
        show x < s.next_id + 1
        omega⟩
    · rw [hsome]
      dsimp only
      obtain ⟨hfc, hlen2, hperm⟩ := insertRowShift_some hc hirs
      have hpermG := gridOcc_set_perm hr hperm
      have hcore : gridWF (s.grid.set row.toNat row2) s.max_rows s.max_cols ∧
          (gridOcc (s.grid.set row.toNat row2)).Nodup ∧
          ∀ x ∈ gridOcc (s.grid.set row.toNat row2), x < s.next_id + 1 := by
        refine ⟨gridWF_set hwf (by rw [hlen2]; exact hrowlen), ?_⟩
        exact good_of_perm_cons hpermG hnd hfresh (Nat.le_refl _)
      by_cases hfc0 : fc = 0
      · rw [if_pos hfc0]
        exact ⟨hcore.1, hcore.2.1, hcore.2.2⟩
      · rw [if_neg hfc0]
        exact ⟨hcore.1, hcore.2.1, hcore.2.2⟩

theorem gridWF_setCell {g : List (List (Option Nat))} {mr mc r c : Nat}
    {v : Option Nat} (h : gridWF g mr mc) : gridWF (setCell g r c v) mr mc := by
  unfold setCell
  by_cases hr : r < g.length
  · exact gridWF_set h (by rw [List.length_set]; exact h.2 _ hr)
  · rw [List.set_eq_of_length_le (by omega)]
    exact h

theorem clampCol_lt {s : LadderSession} (h : 0 < s.max_cols) (target_col : Int) :
    clampCol s target_col < s.max_cols := by
  unfold clampCol
  by_cases h1 : (s.max_cols : Int) ≤ (if target_col < 0 then 0 else target_col)
  · rw [if_pos h1]
    omega
  · rw [if_neg h1]
    push_neg at h1
    by_cases h2 : target_col < 0
    · rw [if_pos h2]
      rw [if_pos h2] at h1
      omega
    · rw [if_neg h2]
      rw [if_neg h2] at h1
      omega

theorem move_block_good {s : LadderSession} {bid : Nat} {new_row target_col dir : Int}
    (hg : GoodS s) : GoodS (move_block s bid new_row target_col dir).2 := by
  obtain ⟨hwf, hnd, hfresh⟩ := hg
  unfold move_block
  cases hfb : find_block s bid with
  | none => exact ⟨hwf, hnd, hfresh⟩
  | some rc =>
      cases rc with
      | mk old_row old_col =>
          dsimp only
          obtain ⟨hr0, hc0, hcell⟩ := find_block_cell hfb
          have hmc : 0 < s.max_cols := by
            have h2 := hwf.2 _ hr0
            omega
          have hnrlt : clampRow s new_row old_row < s.max_rows := by
            unfold clampRow
            by_cases h : 0 ≤ new_row ∧ new_row < (s.max_rows : Int)
            · rw [if_pos h]
              omega
            · rw [if_neg h]
              rw [← hwf.1]
              exact hr0
          have htclt : clampCol s target_col < s.max_cols := clampCol_lt hmc target_col
          by_cases hsame :
              old_row = clampRow s new_row old_row ∧ old_col = clampCol s target_col
          · rw [if_pos hsame]
            exact ⟨hwf, hnd, hfresh⟩
          rw [if_neg hsame]
          have hwf1 : gridWF (setCell s.grid old_row old_col none) s.max_rows s.max_cols :=
            gridWF_setCell hwf
          have hpermRem := gridOcc_setCell_none hcell
          have hnd1 : (gridOcc (setCell s.grid old_row old_col none)).Nodup :=
            (List.nodup_cons.mp (hnd.perm hpermRem)).2
          have hfresh1 :
              ∀ x ∈ gridOcc (setCell s.grid old_row old_col none), x < s.next_id :=
            fun x hx => hfresh x (hpermRem.mem_iff.mpr (List.mem_cons.mpr (Or.inr hx)))
          have hg1len : (setCell s.grid old_row old_col none).length = s.grid.length := by
            unfold setCell
            simp
          have hnr : clampRow s new_row old_row <
              (setCell s.grid old_row old_col none).length := by
            rw [hg1len, hwf.1]
            exact hnrlt
          have hrowlen1 :
              ((setCell s.grid old_row old_col none).getD (clampRow s new_row old_row) []).length
                = s.max_cols := hwf1.2 _ hnr
          have htc : clampCol s target_col <
              ((setCell s.grid old_row old_col none).getD (clampRow s new_row old_row) []).length := by
            rw [hrowlen1]
            exact htclt
          by_cases hdest : cell (setCell s.grid old_row old_col none)
              (clampRow s new_row old_row) (clampCol s target_col) = none
          · rw [if_pos hdest]
            have hpermAdd := @gridOcc_setCell_some (setCell s.grid old_row old_col none)
              (clampRow s new_row old_row) (clampCol s target_col) bid hnr htc hdest
            have hchain : List.Perm
                (gridOcc (setCell (setCell s.grid old_row old_col none)
                  (clampRow s new_row old_row) (clampCol s target_col) (some bid)))
                (gridOcc s.grid) := hpermAdd.trans hpermRem.symm
            refine ⟨?_, ?_, ?_⟩
            · unfold sessionWF
              dsimp only
              exact gridWF_setCell hwf1
            · exact hnd.perm hchain.symm
            · intro x hx
              show x < s.next_id
              exact hfresh x (hchain.mem_iff.mp hx)
          · rw [if_neg hdest]
            rcases insert_with_shift_cases
                { s with grid := setCell s.grid old_row old_col none }
                (clampRow s new_row old_row) (clampCol s target_col) bid dir with
              hnone | ⟨fc, row2, hirs, hsome⟩
            · rw [hnone]
              dsimp only
              have hrow : (s.grid.getD old_row [])[old_col]? = some (some bid) := by
                have hcell2 := hcell
                unfold cell at hcell2
                rw [List.getD_eq_getElem?_getD, List.getElem?_eq_getElem hc0] at hcell2
                simp only [Option.getD_some] at hcell2
                rw [List.getElem?_eq_getElem hc0, hcell2]
              have hrestore : setCell (setCell s.grid old_row old_col none)
                  old_row old_col (some bid) = s.grid := by
                unfold setCell
                rw [getD_set_self hr0, List.set_set, List.set_set]
                rw [list_set_self (s.grid.getD old_row []) old_col (some bid) hrow]
                apply list_set_self
                rw [List.getD_eq_getElem s.grid [] hr0]
                exact List.getElem?_eq_getElem hr0
              rw [hrestore]
              exact ⟨hwf, hnd, hfresh⟩
            · rw [hsome]
              dsimp only
              obtain ⟨hfc, hlen2, hperm⟩ := insertRowShift_some htc hirs
              have hpermG := gridOcc_set_perm hnr hperm
              have hchain : List.Perm
                  (gridOcc ((setCell s.grid old_row old_col none).set
                    (clampRow s new_row old_row) row2))
                  (gridOcc s.grid) := hpermG.trans hpermRem.symm
              refine ⟨?_, ?_, ?_⟩
              · unfold sessionWF
                dsimp only
                exact gridWF_set hwf1 (hlen2.trans hrowlen1)
              · exact hnd.perm hchain.symm
              · intro x hx
                show x < s.next_id
                exact hfresh x (hchain.mem_iff.mp hx)

theorem delete_block_good {s : LadderSession} {bid : Nat}
    (hg : GoodS s) : GoodS (delete_block s bid).2 := by
  obtain ⟨hwf, hnd, hfresh⟩ := hg
  unfold delete_block
  cases hfb : find_block s bid with
  | none => exact ⟨hwf, hnd, hfresh⟩
  | some rc =>
      cases rc with
      | mk r c =>
          dsimp only
          obtain ⟨hr0, hc0, hcell⟩ := find_block_cell hfb
          have hpermRem := gridOcc_setCell_none hcell
          refine ⟨?_, ?_, ?_⟩
          · unfold sessionWF
            dsimp only
            exact gridWF_setCell hwf
          · exact (List.nodup_cons.mp (hnd.perm hpermRem)).2
          · intro x hx
            show x < s.next_id
            exact hfresh x (hpermRem.mem_iff.mpr (List.mem_cons.mpr (Or.inr hx)))

theorem opNewIds_good {s : LadderSession} {op : Op}
    (hg : GoodS s) : GoodS (opNewIds s op).2 := by
  cases op with
  | addFirstFree row bt =>
      have h := @add_block_first_free_good s row bt hg
      unfold opNewIds
      dsimp only
      cases hh : add_block_first_free s row bt with
      | mk res s2 =>
          rw [hh] at h
          cases res
          · exact h
          · exact h
  | addAt row col bt dir =>
      have h := @add_block_at_good s row col bt dir hg
      unfold opNewIds
      dsimp only
      cases hh : add_block_at s row col bt dir with
      | mk res s2 =>
          rw [hh] at h
          cases res
          · exact h
          · exact h
  | move bid nr tc dir => exact move_block_good hg
  | del bid => exact delete_block_good hg

theorem reachable_good : ∀ s : LadderSession, Reachable s → GoodS s := by
  intro s h
  induction h with
  | init mr mc => exact mkSession_good mr mc
  | step s0 op h0 ih => exact opNewIds_good ih

/-! ### Id assignment along a call sequence -/

theorem add_block_first_free_ids (s : LadderSession) (row : Int) (bt : String) :
    s.next_id ≤ (add_block_first_free s row bt).2.next_id ∧
    (add_block_first_free s row bt).2.next_id ≤ s.next_id + 1 ∧
    ∀ st, (add_block_first_free s row bt).1 = some st →
      st.id = s.next_id ∧ (add_block_first_free s row bt).2.next_id = s.next_id + 1 := by
  unfold add_block_first_free
  by_cases hrow : ¬ (0 ≤ row ∧ row < (s.max_rows : Int))
  · rw [if_pos hrow]
    exact ⟨Nat.le_refl _, Nat.le_succ _, fun st h => by cases h⟩
  · rw [if_neg hrow]
    cases hfc : firstFreeCol (s.grid.getD row.toNat []) with
    | none =>
        dsimp only
        exact ⟨Nat.le_refl _, Nat.le_succ _, fun st h => by cases h⟩
    | some free_col =>
        dsimp only
        refine ⟨Nat.le_succ _, Nat.le_refl _, fun st h => ?_⟩
        injection h with h1
        subst h1
        exact ⟨rfl, rfl⟩

theorem add_block_at_ids (s : LadderSession) (row col : Int) (bt : String) (dir : Int) :
    s.next_id ≤ (add_block_at s row col bt dir).2.next_id ∧
    (add_block_at s row col bt dir).2.next_id ≤ s.next_id + 1 ∧
    ∀ st, (add_block_at s row col bt dir).1 = some st →
      st.id = s.next_id ∧ (add_block_at s row col bt dir).2.next_id = s.next_id + 1 := by
  unfold add_block_at
  by_cases hrow : ¬ (0 ≤ row ∧ row < (s.max_rows : Int))
  · rw [if_pos hrow]
    exact ⟨Nat.le_refl _, Nat.le_succ _, fun st h => by cases h⟩
  rw [if_neg hrow]
  by_cases hcol : col < 0 ∨ (s.max_cols : Int) ≤ col
  · rw [if_pos hcol]
    exact ⟨Nat.le_refl _, Nat.le_succ _, fun st h => by cases h⟩
  rw [if_neg hcol]
  by_cases hcell : cell s.grid row.toNat col.toNat = none
  · rw [if_pos hcell]
    refine ⟨Nat.le_succ _, Nat.le_refl _, fun st h => ?_⟩
    injection h with h1
    subst h1
    exact ⟨rfl, rfl⟩
  · rw [if_neg hcell]
    rcases insert_with_shift_cases
        { s with
            next_id := s.next_id + 1
            block_types := dictInsert s.block_types s.next_id bt }
        row.toNat col.toNat s.next_id dir with hnone | ⟨fc, row2, hirs, hsome⟩
    · rw [hnone]
      dsimp only
      exact ⟨Nat.le_succ _, Nat.le_refl _, fun st h => by cases h⟩
    · rw [hsome]
      dsimp only
      by_cases hfc0 : fc = 0
      · rw [if_pos hfc0]
        exact ⟨Nat.le_succ _, Nat.le_refl _, fun st h => by cases h⟩
      · rw [if_neg hfc0]
        refine ⟨Nat.le_succ _, Nat.le_refl _, fun st h => ?_⟩
        injection h with h1
        subst h1
        exact ⟨rfl, rfl⟩

theorem move_block_next_id (s : LadderSession) (bid : Nat) (nr tc dir : Int) :
    (move_block s bid nr tc dir).2.next_id = s.next_id := by
  unfold move_block
  cases hfb : find_block s bid with
  | none => rfl
  | some rc =>
      cases rc with
      | mk a b =>
          dsimp only
          by_cases hsame : a = clampRow s nr a ∧ b = clampCol s tc
          · rw [if_pos hsame]
          · rw [if_neg hsame]
            by_cases hdest : cell (setCell s.grid a b none)
                (clampRow s nr a) (clampCol s tc) = none
            · rw [if_pos hdest]
            · rw [if_neg hdest]
              rcases insert_with_shift_cases
                  { s with grid := setCell s.grid a b none }
                  (clampRow s nr a) (clampCol s tc) bid dir with
                hnone | ⟨fc, row2, hirs, hsome⟩
              · rw [hnone]
              · rw [hsome]

theorem delete_block_next_id (s : LadderSession) (bid : Nat) :
    (delete_block s bid).2.next_id = s.next_id := by
  unfold delete_block
  cases hfb : find_block s bid with
  | none => rfl
  | some rc =>
      cases rc with
      | mk a b => rfl

theorem opNewIds_next_id_mono (s : LadderSession) (op : Op) :
    s.next_id ≤ (opNewIds s op).2.next_id := by
  cases op with
  | addFirstFree row bt =>
      have h := add_block_first_free_ids s row bt
      unfold opNewIds
      dsimp only
      cases hh : add_block_first_free s row bt with
      | mk res s2 =>
          rw [hh] at h
          cases res
          · exact h.1
          · exact h.1
  | addAt row col bt dir =>
      have h := add_block_at_ids s row col bt dir
      unfold opNewIds
      dsimp only
      cases hh : add_block_at s row col bt dir with
      | mk res s2 =>
          rw [hh] at h
          cases res
          · exact h.1
          · exact h.1
  | move bid nr tc dir =>
      unfold opNewIds
      dsimp only
      rw [move_block_next_id]
  | del bid =>
      unfold opNewIds
      dsimp only
      rw [delete_block_next_id]

theorem opNewIds_emitted (s : LadderSession) (op : Op) :
    ∀ x ∈ (opNewIds s op).1, s.next_id ≤ x ∧ x < (opNewIds s op).2.next_id := by
  cases op with
  | addFirstFree row bt =>
      have h := add_block_first_free_ids s row bt
      unfold opNewIds
      dsimp only
      cases hh : add_block_first_free s row bt with
      | mk res s2 =>
          rw [hh] at h
          cases res with
          | none => intro x hx; cases hx
          | some st =>
              intro x hx
              obtain ⟨h1, h2⟩ := h.2.2 st rfl
              have hx2 : x = st.id := by
                rcases List.mem_singleton.mp hx with h3
                exact h3
              rw [hx2, h1]
              show s.next_id ≤ s.next_id ∧ s.next_id < s2.next_id
              rw [h2]
              omega
  | addAt row col bt dir =>
      have h := add_block_at_ids s row col bt dir
      unfold opNewIds
      dsimp only
      cases hh : add_block_at s row col bt dir with
      | mk res s2 =>
          rw [hh] at h
          cases res with
          | none => intro x hx; cases hx
          | some st =>
              intro x hx
              obtain ⟨h1, h2⟩ := h.2.2 st rfl
              have hx2 : x = st.id := by
                rcases List.mem_singleton.mp hx with h3
                exact h3
              rw [hx2, h1]
              show s.next_id ≤ s.next_id ∧ s.next_id < s2.next_id
              rw [h2]
              omega
  | move bid nr tc dir => intro x hx; cases hx
  | del bid => intro x hx; cases hx

theorem opNewIds_fst_cases (s : LadderSession) (op : Op) :
    (opNewIds s op).1 = [] ∨ ∃ a, (opNewIds s op).1 = [a] := by
  cases op with
  | addFirstFree row bt =>
      unfold opNewIds
      dsimp only
      cases hh : add_block_first_free s row bt with
      | mk res s2 =>
          cases res
          · exact Or.inl rfl
          · exact Or.inr ⟨_, rfl⟩
  | addAt row col bt dir =>
      unfold opNewIds
      dsimp only
      cases hh : add_block_at s row col bt dir with
      | mk res s2 =>
          cases res
          · exact Or.inl rfl
          · exact Or.inr ⟨_, rfl⟩
  | move bid nr tc dir => exact Or.inl rfl
  | del bid => exact Or.inl rfl

theorem runTrace_lb : ∀ (ops : List Op) (s : LadderSession) (x : Nat),
    x ∈ runTrace s ops → s.next_id ≤ x
  | [], s, x, h => by cases h
  | op :: rest, s, x, h => by
      unfold runTrace at h
      rcases List.mem_append.mp h with h1 | h1
      · exact (opNewIds_emitted s op x h1).1
      · have h2 := runTrace_lb rest (opNewIds s op).2 x h1
        have h3 := opNewIds_next_id_mono s op
        omega

theorem runTrace_pairwise : ∀ (ops : List Op) (s : LadderSession),
    List.Pairwise (fun a b => a < b) (runTrace s ops)
  | [], s => List.Pairwise.nil
  | op :: rest, s => by
      unfold runTrace
      rw [List.pairwise_append]
      refine ⟨?_, runTrace_pairwise rest _, ?_⟩
      · rcases opNewIds_fst_cases s op with h | ⟨a, h⟩
        · rw [h]
          exact List.Pairwise.nil
        · rw [h]
          exact List.pairwise_singleton _ _
      · intro a ha b hb
        have h1 := (opNewIds_emitted s op a ha).2
        have h2 := runTrace_lb rest _ b hb
        omega

theorem setCell_restore {g : List (List (Option Nat))} {r c bid : Nat}
    (hcell : cell g r c = some bid) :
    setCell (setCell g r c none) r c (some bid) = g := by
  obtain ⟨hr0, hc0⟩ := cell_some_bounds hcell
  have hrow : (g.getD r [])[c]? = some (some bid) := by
    have hcell2 := hcell
    unfold cell at hcell2
    rw [List.getD_eq_getElem?_getD, List.getElem?_eq_getElem hc0] at hcell2
    simp only [Option.getD_some] at hcell2
    rw [List.getElem?_eq_getElem hc0, hcell2]
  unfold setCell
  rw [getD_set_self hr0, List.set_set, List.set_set]
  rw [list_set_self (g.getD r []) c (some bid) hrow]
  apply list_set_self
  rw [List.getD_eq_getElem g [] hr0]
  exact List.getElem?_eq_getElem hr0

/-! ### The claims -/

/-- C1: if `move_block` finds the block but the required shift-insert at
the (clamped) destination fails, the call returns the not-moved sentinel
`none` and the session after the call is identical to the session before
it: the occupant is restored to its original cell, and neither any other
cell, nor the block-type map, nor the id counter changes. -/
theorem C1_move_rollback (s : LadderSession) (block_id : Nat)
    (new_row target_col direction : Int) (old_row old_col : Nat)
    (hfind : find_block s block_id = some (old_row, old_col))
    (hne : ¬ (old_row = clampRow s new_row old_row ∧
              old_col = clampCol s target_col))
    (hocc : cell (setCell s.grid old_row old_col none)
      (clampRow s new_row old_row) (clampCol s target_col) ≠ none)
    (hfail : insertRowShift ((setCell s.grid old_row old_col none).getD
        (clampRow s new_row old_row) []) (clampCol s target_col)
        block_id direction = none) :
    move_block s block_id new_row target_col direction = (none, s) := by
  obtain ⟨hr0, hc0, hcell⟩ := find_block_cell hfind
  unfold move_block
  rw [hfind]
  dsimp only
  rw [if_neg hne, if_neg hocc]
  have hnone := @insert_with_shift_of_none
    { s with grid := setCell s.grid old_row old_col none }
    (clampRow s new_row old_row) (clampCol s target_col) block_id direction hfail
  rw [hnone]
  dsimp only
  rw [setCell_restore hcell]

theorem C1_move_rollback_witness :
    move_block exSession 1 0 2 1 = (none, exSession) :=
  C1_move_rollback exSession 1 0 2 1 0 0 (by decide) (by decide) (by decide)
    (by decide)

/-- C2 (counterexample): the claim predicts that shift-right picks the
closest empty cell at index `free ≥ col` and shifts only the occupants
of `(col, free]`; `shift_right_spec` renders that prediction.  On the
row `[1, _, 2, _]` with insertion at column 0 the code instead reaches
the rightmost empty cell, also displacing the gap, so the two disagree. -/
theorem C2_nearest_vacancy_counterexample :
    shift_right [some 1, none, some 2, none] 0 9 =
        some (0, [some 9, some 1, none, some 2]) ∧
    shift_right_spec [some 1, none, some 2, none] 0 9 =
        some (0, [some 9, some 1, some 2, none]) ∧
    shift_right [some 1, none, some 2, none] 0 9 ≠
      shift_right_spec [some 1, none, some 2, none] 0 9 := by
  decide

/-- C2 (amended): for every row, insertion column and grid contents,
shift-right inserts the new occupant at `col` after choosing as vacancy
the farthest (rightmost) empty cell at index `free ≥ col`, shifting every
cell of `[col, free)` — occupants and gaps alike — one step right, and it
fails exactly when no empty cell at index `≥ col` exists; symmetrically,
shift-left chooses the farthest (leftmost) empty cell at index
`free ≤ col` and shifts every cell of `(free, col]` one step left,
failing exactly when no empty cell at index `≤ col` exists; auto mode
(direction = 0) tries shift-right first and shift-left only if that
fails. -/
theorem C2_shift_farthest_vacancy (row : List (Option Nat)) (col bid : Nat) :
    (shift_right row col bid = none ↔ ∀ j, col ≤ j → cellFree row j = false) ∧
    (∀ free, col ≤ free → cellFree row free = true →
      (∀ j, free < j → cellFree row j = false) →
      shift_right row col bid = some (col, row.take col ++
        some bid :: ((row.drop col).take (free - col) ++ row.drop (free + 1)))) ∧
    (shift_left row col bid = none ↔ ∀ j, j ≤ col → cellFree row j = false) ∧
    (∀ free, free ≤ col → col < row.length → cellFree row free = true →
      (∀ j, j < free → cellFree row j = false) →
      shift_left row col bid = some (col, row.take free ++
        ((row.drop (free + 1)).take (col - free) ++ some bid :: row.drop (col + 1)))) ∧
    (insertRowShift row col bid 0 =
      match shift_right row col bid with
      | some res => some res
      | none => shift_left row col bid) := by
  refine ⟨shift_right_none_iff, ?_, shift_left_none_iff, ?_, ?_⟩
  · intro free h1 h2 h3
    exact shift_right_eq_concat (findFreeRight_complete h2 h1 h3)
  · intro free h1 hcl h2 h3
    exact shift_left_eq_concat (findFreeLeft_complete h2 h1 h3) hcl
  · unfold insertRowShift
    rw [if_neg (by omega), if_neg (by omega)]

theorem C2_shift_farthest_vacancy_witness :
    shift_right [some 1, none, some 2, none] 0 9 =
      some (0, [some 9, some 1, none, some 2]) := by
  have h := (C2_shift_farthest_vacancy [some 1, none, some 2, none] 0 9).2.1 3
    (by decide) (by decide) (fun j hj => cellFree_of_ge hj)
  rw [h]
  rfl

/-- C3: every occupant id appears in at most one cell of the grid: the
occupant list of every session reachable from a fresh session through
the public operations (`add_block_first_free`, `add_block_at`,
`move_block`, `delete_block`) has no duplicate, so after any call no id
occupies two distinct cells. -/
theorem C3_no_double_occupancy (s : LadderSession) (h : Reachable s) :
    (gridOcc s.grid).Nodup :=
  (reachable_good s h).2.1

theorem C3_no_double_occupancy_witness :
    (gridOcc (opNewIds (mkSession 2 3) (Op.addAt 0 1 "XIC" 0)).2.grid).Nodup :=
  C3_no_double_occupancy _
    (Reachable.step (mkSession 2 3) (Op.addAt 0 1 "XIC" 0) (Reachable.init 2 3))

/-- C4: when `add_block_at` targets an in-range occupied cell and the
shift-insert finds no free cell in the attempted direction(s), the call
returns the not-placed sentinel `none` and the only change to the
session is the advanced id counter: the grid is unchanged and the
speculatively allocated id is not left in the block-type map (the map
after the call equals the map before it; the freshness hypothesis on
`next_id` holds in every reachable session). -/
theorem C4_add_at_reject_clean (s : LadderSession) (row col : Int)
    (bt : String) (dir : Int)
    (hrow : 0 ≤ row ∧ row < (s.max_rows : Int))
    (hcol : ¬ (col < 0 ∨ (s.max_cols : Int) ≤ col))
    (hocc : cell s.grid row.toNat col.toNat ≠ none)
    (hfreshid : dictLookup s.block_types s.next_id = none)
    (hfail : insertRowShift (s.grid.getD row.toNat []) col.toNat s.next_id dir = none) :
    add_block_at s row col bt dir = (none, { s with next_id := s.next_id + 1 }) := by
  unfold add_block_at
  rw [if_neg (not_not.mpr hrow), if_neg hcol, if_neg hocc]
  have hnone := @insert_with_shift_of_none
    { s with
        next_id := s.next_id + 1
        block_types := dictInsert s.block_types s.next_id bt }
    row.toNat col.toNat s.next_id dir hfail
  rw [hnone]
  dsimp only
  rw [dictPop_dictInsert s.block_types s.next_id bt hfreshid]

theorem C4_add_at_reject_clean_witness :
    add_block_at exFullRow 0 0 "XIO" 0 = (none, { exFullRow with next_id := 3 }) :=
  C4_add_at_reject_clean exFullRow 0 0 "XIO" 0 (by decide) (by decide) (by decide)
    (by decide) (by decide)

/-- C5: a successful shift-insert into a row changes no occupant's
identity, only positions: the multiset of ids occupying the target row
afterwards equals the multiset before plus the one new id, and every
other row of the grid is unchanged. -/
theorem C5_shift_insert_multiset (s : LadderSession) (r c bid : Nat) (dir : Int)
    (fc : Nat) (s2 : LadderSession)
    (hc : c < (s.grid.getD r []).length)
    (h : insert_with_shift s r c bid dir = (some fc, s2)) :
    (↑(rowOcc (s2.grid.getD r [])) : Multiset Nat) =
      bid ::ₘ (↑(rowOcc (s.grid.getD r [])) : Multiset Nat) ∧
    ∀ r2, r2 ≠ r → s2.grid.getD r2 [] = s.grid.getD r2 [] := by
  rcases insert_with_shift_cases s r c bid dir with hnone | ⟨fc0, row2, hirs, hsome⟩
  · rw [hnone] at h
    simp only [Prod.mk.injEq] at h
    exact absurd h.1 (by simp)
  · rw [hsome] at h
    simp only [Prod.mk.injEq, Option.some.injEq] at h
    obtain ⟨h1, h2⟩ := h
    subst h1
    subst h2
    obtain ⟨hfc, hlen2, hperm⟩ := insertRowShift_some hc hirs
    have hr : r < s.grid.length := by
      by_contra hrr
      rw [List.getD_eq_default s.grid [] (by omega)] at hc
      simp at hc
    constructor
    · dsimp only
      rw [getD_set_self hr, Multiset.cons_coe]
      exact Multiset.coe_eq_coe.mpr hperm
    · intro r2 hr2
      dsimp only
      rw [getD_set_ne (Ne.symm hr2)]

theorem C5_shift_insert_multiset_witness :
    (↑(rowOcc (exC5out.grid.getD 0 [])) : Multiset Nat) =
      9 ::ₘ (↑(rowOcc (exC5.grid.getD 0 [])) : Multiset Nat) :=
  (C5_shift_insert_multiset exC5 0 0 9 1 0 exC5out (by decide) (by decide)).1

/-- C6: along every sequence of public calls on one session, the ids of
the successfully returned `BlockState`s of the add operations are
assigned in strictly increasing order — hence pairwise distinct — and an
id once assigned is never assigned again later in the sequence, even
after deletions. -/
theorem C6_ids_strictly_increasing (s : LadderSession) (ops : List Op) :
    List.Pairwise (fun a b => a < b) (runTrace s ops) :=
  runTrace_pairwise ops s

theorem snapshotRow_pos (s : LadderSession) (r : Nat) :
    ∀ (rowl : List (Option Nat)) (c0 : Nat) (st : BlockState),
      st ∈ snapshotRow s r rowl c0 →
      st.position = st.row * s.max_cols + st.index + 1
  | [], c0, st, h => by cases h
  | none :: rest, c0, st, h => snapshotRow_pos s r rest (c0 + 1) st h
  | some bid :: rest, c0, st, h => by
      rcases List.mem_cons.mp h with h1 | h1
      · subst h1
        rfl
      · exact snapshotRow_pos s r rest (c0 + 1) st h1

theorem snapshotRows_pos (s : LadderSession) :
    ∀ (g : List (List (Option Nat))) (r0 : Nat) (st : BlockState),
      st ∈ snapshotRows s g r0 →
      st.position = st.row * s.max_cols + st.index + 1
  | [], r0, st, h => by cases h
  | rowl :: rest, r0, st, h => by
      rcases List.mem_append.mp h with h1 | h1
      · exact snapshotRow_pos s r0 rowl 0 st h1
      · exact snapshotRows_pos s rest (r0 + 1) st h1

theorem add_block_first_free_pos (s : LadderSession) (row : Int) (bt : String) :
    ∀ st, (add_block_first_free s row bt).1 = some st →
      st.position = st.row * s.max_cols + st.index + 1 := by
  unfold add_block_first_free
  by_cases hrow : ¬ (0 ≤ row ∧ row < (s.max_rows : Int))
  · rw [if_pos hrow]
    exact fun st h => by cases h
  · rw [if_neg hrow]
    cases hfc : firstFreeCol (s.grid.getD row.toNat []) with
    | none => exact fun st h => by cases h
    | some free_col =>
        intro st h
        injection h with h1
        subst h1
        rfl

theorem add_block_at_pos (s : LadderSession) (row col : Int) (bt : String)
    (dir : Int) :
    ∀ st, (add_block_at s row col bt dir).1 = some st →
      st.position = st.row * s.max_cols + st.index + 1 := by
  unfold add_block_at
  by_cases hrow : ¬ (0 ≤ row ∧ row < (s.max_rows : Int))
  · rw [if_pos hrow]
    exact fun st h => by cases h
  rw [if_neg hrow]
  by_cases hcol : col < 0 ∨ (s.max_cols : Int) ≤ col
  · rw [if_pos hcol]
    exact fun st h => by cases h
  rw [if_neg hcol]
  by_cases hcell : cell s.grid row.toNat col.toNat = none
  · rw [if_pos hcell]
    intro st h
    injection h with h1
    subst h1
    rfl
  · rw [if_neg hcell]
    rcases insert_with_shift_cases
        { s with
            next_id := s.next_id + 1
            block_types := dictInsert s.block_types s.next_id bt }
        row.toNat col.toNat s.next_id dir with hnone | ⟨fc, row2, hirs, hsome⟩
    · rw [hnone]
      exact fun st h => by cases h
    · rw [hsome]
      dsimp only
      by_cases hfc0 : fc = 0
      · rw [if_pos hfc0]
        exact fun st h => by cases h
      · rw [if_neg hfc0]
        intro st h
        injection h with h1
        subst h1
        rfl

/-- C7: every `BlockState` returned by `get_block_state`, contained in a
`get_snapshot`, or returned by a successful add satisfies
`position = row * max_cols + index + 1` for its current `(row, index)`:
the position is recomputed from the cell on every query, never stored
stale. -/
theorem C7_position_derived :
    (∀ (s : LadderSession) (bid : Nat) (st : BlockState),
        get_block_state s bid = some st →
        st.position = st.row * s.max_cols + st.index + 1) ∧
    (∀ (s : LadderSession) (st : BlockState), st ∈ get_snapshot s →
        st.position = st.row * s.max_cols + st.index + 1) ∧
    (∀ (s : LadderSession) (row : Int) (bt : String) (st : BlockState)
        (s2 : LadderSession), add_block_first_free s row bt = (some st, s2) →
        st.position = st.row * s.max_cols + st.index + 1) ∧
    (∀ (s : LadderSession) (row col : Int) (bt : String) (dir : Int)
        (st : BlockState) (s2 : LadderSession),
        add_block_at s row col bt dir = (some st, s2) →
        st.position = st.row * s.max_cols + st.index + 1) := by
  refine ⟨?_, ?_, ?_, ?_⟩
  · intro s bid st h
    unfold get_block_state at h
    cases hfb : find_block s bid with
    | none => rw [hfb] at h; cases h
    | some rc =>
        cases rc with
        | mk r c =>
            rw [hfb] at h
            dsimp only at h
            injection h with h1
            subst h1
            rfl
  · intro s st h
    exact snapshotRows_pos s s.grid 0 st h
  · intro s row bt st s2 h
    exact add_block_first_free_pos s row bt st (congrArg Prod.fst h)
  · intro s row col bt dir st s2 h
    exact add_block_at_pos s row col bt dir st (congrArg Prod.fst h)

theorem C7_position_derived_witness :
    BlockState.position ⟨3, "OTE", 0, 2, 3⟩ =
      BlockState.row ⟨3, "OTE", 0, 2, 3⟩ * exSession.max_cols +
        BlockState.index ⟨3, "OTE", 0, 2, 3⟩ + 1 :=
  C7_position_derived.1 exSession 3 ⟨3, "OTE", 0, 2, 3⟩ (by decide)

/-- C8: calling `move_block` with a placed block's own current cell —
after the clamping rules are applied — succeeds, returns the pair
`((row, col), (row, col))`, and leaves the session (grid, block-type
map, id counter) identical to its pre-call state. -/
theorem C8_noop_move (s : LadderSession) (block_id : Nat)
    (new_row target_col direction : Int) (r c : Nat)
    (hfind : find_block s block_id = some (r, c))
    (hr : clampRow s new_row r = r) (hc : clampCol s target_col = c) :
    move_block s block_id new_row target_col direction =
      (some ((r, c), (r, c)), s) := by
  unfold move_block
  rw [hfind]
  dsimp only
  rw [if_pos ⟨hr.symm, hc.symm⟩, hr, hc]

theorem C8_noop_move_witness :
    move_block exSession 2 0 1 5 = (some ((0, 1), (0, 1)), exSession) :=
  C8_noop_move exSession 2 0 1 5 0 1 (by decide) (by decide) (by decide)

/-- C9 (implicit): when `add_block_at` fails because the shift-insert
finds no free cell, the internal id counter has still advanced by
exactly one (the discarded id is never reclaimed), so the id sequence of
later successful adds has a permanent gap; by contrast, a failed
`add_block_first_free` does not advance the counter at all. -/
theorem C9_counter_gap :
    (∀ (s : LadderSession) (row col : Int) (bt : String) (dir : Int),
        (0 ≤ row ∧ row < (s.max_rows : Int)) →
        ¬ (col < 0 ∨ (s.max_cols : Int) ≤ col) →
        cell s.grid row.toNat col.toNat ≠ none →
        insertRowShift (s.grid.getD row.toNat []) col.toNat s.next_id dir = none →
        (add_block_at s row col bt dir).1 = none ∧
          (add_block_at s row col bt dir).2.next_id = s.next_id + 1) ∧
    (∀ (s : LadderSession) (row : Int) (bt : String),
        (add_block_first_free s row bt).1 = none →
        (add_block_first_free s row bt).2.next_id = s.next_id) := by
  constructor
  · intro s row col bt dir hrow hcol hocc hfail
    unfold add_block_at
    rw [if_neg (not_not.mpr hrow), if_neg hcol, if_neg hocc]
    have hnone := @insert_with_shift_of_none
      { s with
          next_id := s.next_id + 1
          block_types := dictInsert s.block_types s.next_id bt }
      row.toNat col.toNat s.next_id dir hfail
    rw [hnone]
    exact ⟨rfl, rfl⟩
  · intro s row bt h
    unfold add_block_first_free at h ⊢
    by_cases hrow : ¬ (0 ≤ row ∧ row < (s.max_rows : Int))
    · rw [if_pos hrow]
    · rw [if_neg hrow] at h ⊢
      cases hfc : firstFreeCol (s.grid.getD row.toNat []) with
      | none => rfl
      | some free_col =>
          rw [hfc] at h
          dsimp only at h
          cases h

theorem C9_counter_gap_witness :
    ((add_block_at exFullRow 0 0 "XIO" 0).1 = none ∧
      (add_block_at exFullRow 0 0 "XIO" 0).2.next_id = exFullRow.next_id + 1) ∧
    (add_block_first_free exFullRow 0 "XIO").2.next_id = exFullRow.next_id :=
  ⟨C9_counter_gap.1 exFullRow 0 0 "XIO" 0 (by decide) (by decide) (by decide)
      (by decide),
   C9_counter_gap.2 exFullRow 0 "XIO" (by decide)⟩

/-- C10 (implicit): a same-row move in auto mode never fails: for every
block currently placed at `(r, old_col)` in a well-formed session and
every target column, `move_block` with `new_row = r` and `direction = 0`
returns a success tuple, never the not-moved sentinel, because the
vacated source cell is always reachable by shift-right or shift-left. -/
theorem C10_same_row_auto_move (s : LadderSession) (block_id : Nat)
    (target_col : Int) (r oc : Nat)
    (hwf : sessionWF s)
    (hfind : find_block s block_id = some (r, oc)) :
    (move_block s block_id (r : Int) target_col 0).1.isSome = true := by
  obtain ⟨hr0, hc0, hcell⟩ := find_block_cell hfind
  have hmaxr : s.grid.length = s.max_rows := hwf.1
  have hrowlen : (s.grid.getD r []).length = s.max_cols := hwf.2 _ hr0
  have hmc : 0 < s.max_cols := by omega
  have hr_lt : r < s.max_rows := by omega
  have hnr : clampRow s (r : Int) r = r := by
    unfold clampRow
    by_cases h : 0 ≤ (r : Int) ∧ (r : Int) < (s.max_rows : Int)
    · rw [if_pos h]
      simp
    · rw [if_neg h]
  unfold move_block
  rw [hfind]
  dsimp only
  rw [hnr]
  have htclt : clampCol s target_col < s.max_cols := clampCol_lt hmc target_col
  by_cases hsame : r = r ∧ oc = clampCol s target_col
  · rw [if_pos hsame]
    rfl
  · rw [if_neg hsame]
    have hoc_ne : oc ≠ clampCol s target_col := fun he => hsame ⟨rfl, he⟩
    have hg1row : (setCell s.grid r oc none).getD r [] =
        (s.grid.getD r []).set oc none := by
      unfold setCell
      exact getD_set_self hr0
    have hocfree : cellFree ((s.grid.getD r []).set oc none) oc = true := by
      rw [cellFree_iff]
      exact List.getElem?_set_self hc0
    by_cases hdest : cell (setCell s.grid r oc none) r (clampCol s target_col) = none
    · rw [if_pos hdest]
      rfl
    · rw [if_neg hdest]
      rcases insert_with_shift_cases
          { s with grid := setCell s.grid r oc none }
          r (clampCol s target_col) block_id 0 with hnone | ⟨fc, row2, hirs, hsome⟩
      · exfalso
        have h2 : insertRowShift ((setCell s.grid r oc none).getD r [])
            (clampCol s target_col) block_id 0 = none := by
          cases hi : insertRowShift ((setCell s.grid r oc none).getD r [])
              (clampCol s target_col) block_id 0 with
          | none => rfl
          | some res =>
              cases res with
              | mk a b =>
                  have hs := @insert_with_shift_of_some
                    { s with grid := setCell s.grid r oc none }
                    r (clampCol s target_col) block_id 0 a b hi
                  rw [hs] at hnone
                  simp at hnone
        rw [hg1row, insertRowShift_auto_none_iff] at h2
        rcases Nat.le_total oc (clampCol s target_col) with hle | hle
        · have h3 := h2.2 oc hle
          rw [hocfree] at h3
          cases h3
        · have h3 := h2.1 oc hle
          rw [hocfree] at h3
          cases h3
      · rw [hsome]
        rfl

theorem C10_same_row_auto_move_witness :
    (move_block exSession 1 0 2 0).1.isSome = true :=
  C10_same_row_auto_move exSession 1 2 0 0
    (⟨rfl, fun i hi => by
      have h1 : exSession.grid.length = 1 := rfl
      have h0 : i = 0 := by omega
      subst h0
      rfl⟩)
    (by decide)
